import Mathlib

/-!
Verification of the Learning Genie media downloader against its
natural-language specification.  The Python sources are shallowly embedded:
strings are `List Char`, dictionaries are association lists or functions,
the filesystem is a list of paths, and the network is an oracle mapping a
URL to an optional error.
-/

namespace LG

/-! ## Decimal rendering, modelling the Python format `%02d` -/

/-- The character for a single decimal digit (used for values below ten). -/
def decDigit (n : Nat) : Char := Char.ofNat (48 + n)

/-- Decimal digits of `n`, most significant first, with explicit fuel. -/
def decAux : Nat → Nat → List Char
  | 0, _ => []
  | fuel + 1, n => if n = 0 then [] else decAux fuel (n / 10) ++ [decDigit (n % 10)]

/-- Decimal representation of `n` (empty for zero). -/
def decRepr (n : Nat) : List Char := decAux n n

/-- Reading a digit list back to a number; inverse used to show injectivity. -/
def ofDec (l : List Char) : Nat := l.foldl (fun a c => a * 10 + (c.toNat - 48)) 0

/-- The Python format `%02d`: decimal digits left-padded with zeros to width two. -/
def fmt02 (n : Nat) : List Char :=
  List.replicate (2 - (decRepr n).length) '0' ++ decRepr n

/-! ## Filename construction shared by the two download scripts.
`generate_filename` in both scripts produces
`f"[sender]_[date_part]_[count:02d].[file_type]"` when the per-run counter
exceeds one and the bare form otherwise; `base` below is the
`f"[sender]_[date_part]"` base key. -/

/-- The filename the scripts build from the base key, the per-run counter
value and the extension. -/
def mkName (base : List Char) (count : Nat) (ext : List Char) : List Char :=
  if count > 1 then base ++ '_' :: (fmt02 count ++ '.' :: ext)
  else base ++ '.' :: ext

/-- A base key that cannot be confused with another base key extended by a
numeric suffix: it has no dot, and its third-from-last character is neither
a digit nor an underscore (true of keys ending in a well-formed formatted
timestamp or in the literal `unknown_date`). -/
def GoodKey (k : List Char) : Prop :=
  (∀ c ∈ k, c ≠ '.') ∧
  ∃ r0 r1 r2 rest, k.reverse = r0 :: r1 :: r2 :: rest ∧
    r2.isDigit = false ∧ r2 ≠ '_'

/-! ## Chat script item model (`scripts/download_chat.py`) -/

/-- A media descriptor as built by `parse_messages` in `download_chat.py`. -/
structure ChatItem where
  url : List Char
  file_type : List Char
  date_raw : List Char
  date : List Char
  sender : List Char
  title : List Char
  description : List Char
deriving DecidableEq

/-- The chat script sanitises the sender via
`sender.replace(' ', '_').replace('.', '')`. -/
def chatSanitizeSender (s : List Char) : List Char :=
  (s.map (fun c => if c = ' ' then '_' else c)).filter (fun c => !(c == '.'))

/-- The chat script formats the date via
`date_str.replace('T', '_').replace('Z', '').replace(':', '-')`. -/
def chatFormatDate (d : List Char) : List Char :=
  (((d.map (fun c => if c = 'T' then '_' else c)).filter
      (fun c => !(c == 'Z'))).map (fun c => if c = ':' then '-' else c))

/-- The date part of the filename: the formatted date, or `unknown_date`
when the raw date string is empty. -/
def chatDatePart (d : List Char) : List Char :=
  if d = [] then "unknown_date".toList else chatFormatDate d

/-- The base key `f"[sender]_[date_part]"` used by the per-run counter. -/
def chatKey (it : ChatItem) : List Char :=
  chatSanitizeSender it.sender ++ '_' :: chatDatePart it.date_raw

/-- A chat timestamp of the shape `YYYY-MM-DDTHH:MM:SSZ` with digits in all
digit positions. -/
def IsChatIso (d : List Char) : Prop :=
  ∃ y1 y2 y3 y4 mo1 mo2 d1 d2 h1 h2 mi1 mi2 s1 s2,
    d = [y1, y2, y3, y4, '-', mo1, mo2, '-', d1, d2, 'T',
         h1, h2, ':', mi1, mi2, ':', s1, s2, 'Z'] ∧
    ∀ c ∈ [y1, y2, y3, y4, mo1, mo2, d1, d2, h1, h2, mi1, mi2, s1, s2],
      c.isDigit = true

/-- Well-formedness of a chat item as far as filename generation is
concerned: the raw timestamp is empty or a well-formed ISO timestamp. -/
def ChatWF (it : ChatItem) : Prop :=
  it.date_raw = [] ∨ IsChatIso it.date_raw

/-! ## Home script item model (`scripts/download_home.py`) -/

/-- A media descriptor as built by `parse_notes` in `download_home.py`. -/
structure HomeItem where
  url : List Char
  fileType : List Char
  date : List Char
  child : List Char
  title : List Char
  description : List Char
deriving DecidableEq

/-- The home script sanitises the child name via `child.replace(" ", "_")`. -/
def homeSanitizeChild (s : List Char) : List Char :=
  s.map (fun c => if c = ' ' then '_' else c)

/-- The home script formats the date via
`date_str.replace(" ", "_").replace(":", "-")`. -/
def homeFormatDate (d : List Char) : List Char :=
  (d.map (fun c => if c = ' ' then '_' else c)).map (fun c => if c = ':' then '-' else c)

/-- The date part of the home filename, or `unknown_date` when empty. -/
def homeDatePart (d : List Char) : List Char :=
  if d = [] then "unknown_date".toList else homeFormatDate d

/-- The base key `f"[child]_[date_part]"` used by the per-run counter. -/
def homeKey (it : HomeItem) : List Char :=
  homeSanitizeChild it.child ++ '_' :: homeDatePart it.date

/-- A home timestamp of the shape `YYYY-MM-DD HH:MM:SS` with digits in all
digit positions. -/
def IsHomeIso (d : List Char) : Prop :=
  ∃ y1 y2 y3 y4 mo1 mo2 d1 d2 h1 h2 mi1 mi2 s1 s2,
    d = [y1, y2, y3, y4, '-', mo1, mo2, '-', d1, d2, ' ',
         h1, h2, ':', mi1, mi2, ':', s1, s2] ∧
    ∀ c ∈ [y1, y2, y3, y4, mo1, mo2, d1, d2, h1, h2, mi1, mi2, s1, s2],
      c.isDigit = true

/-- Well-formedness of a home item: the timestamp is empty or well formed,
and the child name contains no dot. -/
def HomeWF (it : HomeItem) : Prop :=
  (it.date = [] ∨ IsHomeIso it.date) ∧ ∀ c ∈ it.child, c ≠ '.'

/-! ## Generic per-run filename assignment and first download pass.
Both scripts thread a `defaultdict(int)` through `generate_filename`; the
dictionary is modelled as a function from base keys to counts.  `gen`
stands for the script's `generate_filename`. -/

/-- Run a filename generator over a list of items, threading the counter
state, collecting the generated filenames in order. -/
def assignAux {α : Type} (gen : α → (List Char → Nat) → List Char × (List Char → Nat)) :
    (List Char → Nat) → List α → List (List Char)
  | _, [] => []
  | counts, it :: rest =>
    let r := gen it counts
    r.1 :: assignAux gen r.2 rest

/-- Number of items of `l` whose base key is `k`. -/
def keyOcc {α : Type} (keyF : α → List Char) (l : List α) (k : List Char) : Nat :=
  l.countP (fun it => decide (keyF it = k))

/-- `os.path.join(output_dir, filename)`. -/
def pathJoin (dir fname : List Char) : List Char := dir ++ '/' :: fname

/-- The first pass of `download_media`: generate a filename for every item,
count the ones whose target path already exists on disk, and collect the
(item, filepath) pairs still to be downloaded, in input order. -/
def planAux {α : Type} (gen : α → (List Char → Nat) → List Char × (List Char → Nat))
    (dir : List Char) (disk : List (List Char)) :
    (List Char → Nat) → List α → Nat × List (α × List Char)
  | _, [] => (0, [])
  | counts, it :: rest =>
    let r := gen it counts
    let filepath := pathJoin dir r.1
    let rec2 := planAux gen dir disk r.2 rest
    if filepath ∈ disk then (rec2.1 + 1, rec2.2)
    else (rec2.1, (it, filepath) :: rec2.2)

/-! ## Download phase, shared result shapes.
`download_one` returns the tuple
`(filepath, date, file_type, title, description, error)`; the collection
loop keeps the entries whose error slot is `None`. -/

/-- The tuple returned by `download_one` in both scripts. -/
structure FetchResult where
  filepath : List Char
  date : List Char
  file_type : List Char
  title : List Char
  description : List Char
  error : Option String
deriving DecidableEq

/-- An entry of the `newly_downloaded` list in both scripts. -/
structure NewFile where
  filepath : List Char
  date : List Char
  file_type : List Char
  title : List Char
  description : List Char
deriving DecidableEq

/-- The observable outcome of `download_media`: which URLs were fetched,
which files were newly downloaded, and the resulting on-disk file set. -/
structure DownloadMediaResult where
  attempted_urls : List (List Char)
  newly_downloaded : List NewFile
  disk : List (List Char)
deriving DecidableEq

/-- The collection loop of `download_media`: keep the results whose error
slot is empty, dropping the error slot. -/
def collectNewly (results : List FetchResult) : List NewFile :=
  (results.filter (fun r => r.error.isNone)).map
    (fun r => ⟨r.filepath, r.date, r.file_type, r.title, r.description⟩)

namespace DownloadChat

/-- `generate_filename` of `download_chat.py`: bump the per-run counter for
the item's base key and build the name, with a two-digit suffix from the
second occurrence on. -/
def generate_filename (item : ChatItem) (date_counts : List Char → Nat) :
    List Char × (List Char → Nat) :=
  let base_key := chatKey item
  let count := date_counts base_key + 1
  (mkName base_key count item.file_type,
   fun k => if k = base_key then count else date_counts k)

/-- The filenames generated for a run over `media_items`, in order. -/
def assignFilenames (media_items : List ChatItem) : List (List Char) :=
  assignAux generate_filename (fun _ => 0) media_items

/-- The `to_download` list of `download_media`. -/
def toDownload (media_items : List ChatItem) (output_dir : List Char)
    (disk : List (List Char)) : List (ChatItem × List Char) :=
  (planAux generate_filename output_dir disk (fun _ => 0) media_items).2

/-- `download_one`: fetch one URL; an exception is caught and returned in
the error slot of the tuple. -/
def download_one (fetchErr : List Char → Option String) (arg : ChatItem × List Char) :
    FetchResult :=
  match fetchErr arg.1.url with
  | none => ⟨arg.2, arg.1.date, arg.1.file_type, arg.1.title, arg.1.description, none⟩
  | some e => ⟨arg.2, arg.1.date, arg.1.file_type, arg.1.title, arg.1.description, some e⟩

/-- `download_media`: skip items whose target path exists, fetch the rest,
return the successfully fetched files. -/
def download_media (media_items : List ChatItem) (output_dir : List Char)
    (disk : List (List Char)) (fetchErr : List Char → Option String) :
    DownloadMediaResult :=
  let to_download := toDownload media_items output_dir disk
  if to_download.isEmpty then ⟨[], [], disk⟩
  else
    let results := to_download.map (download_one fetchErr)
    ⟨to_download.map (fun pr => pr.1.url),
     collectNewly results,
     disk ++ (results.filter (fun r => r.error.isNone)).map (fun r => r.filepath)⟩

end DownloadChat

namespace DownloadHome

/-- `generate_filename` of `download_home.py`. -/
def generate_filename (item : HomeItem) (date_counts : List Char → Nat) :
    List Char × (List Char → Nat) :=
  let base_key := homeKey item
  let count := date_counts base_key + 1
  (mkName base_key count item.fileType,
   fun k => if k = base_key then count else date_counts k)

/-- The filenames generated for a run over `media_items`, in order. -/
def assignFilenames (media_items : List HomeItem) : List (List Char) :=
  assignAux generate_filename (fun _ => 0) media_items

/-- The `to_download` list of `download_media`. -/
def toDownload (media_items : List HomeItem) (output_dir : List Char)
    (disk : List (List Char)) : List (HomeItem × List Char) :=
  (planAux generate_filename output_dir disk (fun _ => 0) media_items).2

/-- `download_one` of the home script. -/
def download_one (fetchErr : List Char → Option String) (arg : HomeItem × List Char) :
    FetchResult :=
  match fetchErr arg.1.url with
  | none => ⟨arg.2, arg.1.date, arg.1.fileType, arg.1.title, arg.1.description, none⟩
  | some e => ⟨arg.2, arg.1.date, arg.1.fileType, arg.1.title, arg.1.description, some e⟩

/-- `download_media` of the home script. -/
def download_media (media_items : List HomeItem) (output_dir : List Char)
    (disk : List (List Char)) (fetchErr : List Char → Option String) :
    DownloadMediaResult :=
  let to_download := toDownload media_items output_dir disk
  if to_download.isEmpty then ⟨[], [], disk⟩
  else
    let results := to_download.map (download_one fetchErr)
    ⟨to_download.map (fun pr => pr.1.url),
     collectNewly results,
     disk ++ (results.filter (fun r => r.error.isNone)).map (fun r => r.filepath)⟩

end DownloadHome

/-! ## Text association (`find_associated_text` in `download_chat.py`) -/

/-- A raw chat message entry; absent JSON fields are `none`, matching the
`item.get(...)` accesses with their defaults. -/
structure ChatMessage where
  sender_id : Option Int
  content_type : Option String
  message : Option String
  date_sent : Option Int
deriving DecidableEq

/-- Time window (seconds) to look for associated text messages. -/
def TEXT_ASSOCIATION_WINDOW : Int := 120

/-- The absolute value of a Python integer. -/
def intAbs (n : Int) : Int := if n < 0 then -n else n

/-- The three continue-checks of the loop body: same sender, a text message
with actual content, and within the time window. -/
def messageQualifies (m : ChatMessage) (senderId : Option Int) (dateSent : Int) : Bool :=
  m.sender_id == senderId &&
  (m.content_type == some "txt" &&
    !(m.message.getD "" == "[image]" || m.message.getD "" == "[video]" ||
      m.message.getD "" == "") &&
  intAbs (m.date_sent.getD 0 - dateSent) ≤ TEXT_ASSOCIATION_WINDOW)

/-- One candidate index of the search: if in bounds and qualifying, its
message text. -/
def tryCandidate (items : List ChatMessage) (idx : Int) (senderId : Option Int)
    (dateSent : Int) : Option String :=
  if h : 0 ≤ idx ∧ idx.toNat < items.length then
    let m := items.get ⟨idx.toNat, h.2⟩
    if messageQualifies m senderId dateSent then some (m.message.getD "") else none
  else none

/-- The doubly-nested loop: for each offset, try the backward index then the
forward index, returning the first hit. -/
def searchOffsets (items : List ChatMessage) (currentIdx : Int) (senderId : Option Int)
    (dateSent : Int) : List Nat → Option String
  | [] => none
  | o :: rest =>
    match tryCandidate items (currentIdx - o) senderId dateSent with
    | some t => some t
    | none =>
      match tryCandidate items (currentIdx + o) senderId dateSent with
      | some t => some t
      | none => searchOffsets items currentIdx senderId dateSent rest

/-- `find_associated_text`: the loop header is `for offset in range(1, 20)`,
so the offsets scanned are 1 through 19. -/
def find_associated_text (items : List ChatMessage) (currentIdx : Int)
    (senderId : Option Int) (dateSent : Int) : Option String :=
  searchOffsets items currentIdx senderId dateSent (List.range' 1 19)

/-- The candidate indices in scan order: backward before forward, offsets of
increasing magnitude from 1 to `n`. -/
def candidatePositions (currentIdx : Int) (n : Nat) : List Int :=
  (List.range' 1 n).flatMap (fun o => [currentIdx - o, currentIdx + o])

/-! ## Thumbnail detection and media kinds (`download_chat.py`) -/

/-- A lowercase hexadecimal digit, the character class `[0-9a-f]`. -/
def isHexLower (c : Char) : Bool := c.isDigit || ('a' ≤ c && c ≤ 'f')

/-- Whether the regular expression `[0-9a-f]jpg` matches at the very end of
the string. -/
def endsWithHexJpg (url : List Char) : Bool :=
  match url.reverse with
  | c1 :: c2 :: c3 :: c4 :: _ => c1 == 'g' && c2 == 'p' && c3 == 'j' && isHexLower c4
  | _ => false

/-- `is_thumbnail`: `re.search(r'[0-9a-f]jpg$', url)`.  The Python anchor
`$` matches at the end of the string and also just before a newline that
ends the string, so both positions are tried. -/
def is_thumbnail (url : List Char) : Bool :=
  endsWithHexJpg url ||
    (match url.reverse with
     | c :: rest => c == '\n' && endsWithHexJpg rest.reverse
     | [] => false)

/-- `url.endswith(pat)`. -/
def hasEnding (url pat : List Char) : Bool :=
  url.reverse.take pat.length == pat.reverse

/-- `get_file_type`: `.mp4` maps to `mp4`, `.png` maps to `jpg` (these
files are actually JPEGs despite the extension), anything else to `bin`. -/
def get_file_type (url : List Char) : List Char :=
  if hasEnding url ".mp4".toList then "mp4".toList
  else if hasEnding url ".png".toList then "jpg".toList
  else "bin".toList

/-- The attachment filter of `parse_messages`: the URL is non-empty, is not
a thumbnail, and ends in `.png` or `.mp4`. -/
def chatMediaAccepted (url : List Char) : Bool :=
  !url.isEmpty && !is_thumbnail url &&
    (hasEnding url ".png".toList || hasEnding url ".mp4".toList)

/-- The date tags selected by `set_metadata` for a given mapped kind. -/
def dateTagFields (file_type : List Char) : List String :=
  if file_type = "jpg".toList then
    ["DateTimeOriginal", "CreateDate", "ModifyDate"]
  else if file_type = "mp4".toList then
    ["CreateDate", "ModifyDate", "MediaCreateDate", "MediaModifyDate",
     "TrackCreateDate", "TrackModifyDate"]
  else []

/-! ## Folder name sanitisation (`sanitize_folder_name` in `download_chat.py`) -/

/-- The ASCII fragment of the regex class `\w`: a letter, a digit, or the
underscore.  On code points below 128 the Unicode-aware `\w` used by
Python for `str` patterns matches exactly these characters. -/
def isWordChar (c : Char) : Bool := c.isAlphanum || c == '_'

/-- A faithful model of the word class `\w` of the sanitiser's pattern:
any predicate that agrees with the ASCII table on ASCII code points.  The
Unicode-aware class of Python is such a predicate (its values on
non-ASCII word characters such as accented letters are left open, so the
theorems below hold for it as well). -/
def IsWordClass (w : Char → Bool) : Prop :=
  ∀ c : Char, c.toNat < 128 → w c = isWordChar c

/-- The substitution `re.sub(r'[^\w\-]', '_', name)` over a word class
`w`: every character that is neither a word character nor a hyphen
becomes an underscore. -/
def substituteNonWord (w : Char → Bool) (name : List Char) : List Char :=
  name.map (fun c => if w c || c == '-' then c else '_')

/-- The substitution `re.sub(r'_+', '_', safe)`: runs of underscores are
collapsed to a single underscore. -/
def collapseUnderscores : List Char → List Char
  | [] => []
  | [c] => [c]
  | a :: b :: rest =>
    if a == '_' && b == '_' then collapseUnderscores (b :: rest)
    else a :: collapseUnderscores (b :: rest)

/-- The left half of `safe.strip('_')`. -/
def lstripUnderscores (l : List Char) : List Char :=
  l.dropWhile (fun c => c == '_')

/-- The right half of `safe.strip('_')`. -/
def rstripUnderscores : List Char → List Char
  | [] => []
  | c :: rest =>
    let r := rstripUnderscores rest
    if r.isEmpty && c == '_' then [] else c :: r

/-- `sanitize_folder_name` over a word class `w`: substitute, collapse,
then strip underscores. -/
def sanitize_folder_name (w : Char → Bool) (name : List Char) : List Char :=
  rstripUnderscores (lstripUnderscores (collapseUnderscores (substituteNonWord w name)))

/-- Absence of two adjacent underscores. -/
def noDoubleUnderscore : List Char → Bool
  | a :: b :: rest => !(a == '_' && b == '_') && noDoubleUnderscore (b :: rest)
  | _ => true

/-! ## Config and sync-state persistence (`config.py`, `fetch.py`) -/

/-- A JSON value. -/
inductive JVal where
  | null : JVal
  | jbool : Bool → JVal
  | jnum : Int → JVal
  | jstr : String → JVal
  | jarr : List JVal → JVal
  | jobj : List (String × JVal) → JVal

/-- What the persisted JSON file may look like when read: missing,
unparseable, or a parsed object. -/
inductive FileState where
  | absent : FileState
  | corrupt : FileState
  | valid : List (String × JVal) → FileState

/-- Lookup in a JSON object, first matching key wins. -/
def dictLookup (d : List (String × JVal)) (k : String) : Option JVal :=
  match d with
  | [] => none
  | (k2, v) :: rest => if k2 = k then some v else dictLookup rest k

/-- The Python merge `{**d1, **d2}` (also the result of `d1.update(d2)`):
keys of `d1` keep their position but take the value from `d2` when present;
keys only in `d2` are appended in order. -/
def dictMerge (d1 d2 : List (String × JVal)) : List (String × JVal) :=
  (d1.map (fun kv =>
    match dictLookup d2 kv.1 with
    | some v => (kv.1, v)
    | none => kv)) ++
  d2.filter (fun kv => (dictLookup d1 kv.1).isNone)

/-- `DEFAULT_CONFIG` of `config.py`: all three keys default to `None`. -/
def DEFAULT_CONFIG : List (String × JVal) :=
  [("location", JVal.null), ("email", JVal.null), ("op_path", JVal.null)]

/-- `load_config`: merge the parsed file over the defaults; a missing or
unparseable file yields the defaults. -/
def load_config : FileState → List (String × JVal)
  | FileState.absent => DEFAULT_CONFIG
  | FileState.corrupt => DEFAULT_CONFIG
  | FileState.valid cfg => dictMerge DEFAULT_CONFIG cfg

/-- `load_last_sync` of `fetch.py`: the parsed file, or an empty mapping
when missing or unparseable. -/
def load_last_sync : FileState → List (String × JVal)
  | FileState.absent => []
  | FileState.corrupt => []
  | FileState.valid m => m

/-- `save_last_sync` of `fetch.py`: load the existing state, update it with
the new markers, and write the result. -/
def save_last_sync (st : FileState) (data : List (String × JVal)) :
    List (String × JVal) :=
  dictMerge (load_last_sync st) data

/-! ## Concrete instances used by witnesses and counterexamples -/

/-- Chat item with sender `X` and raw date `D`; its base key is `X_D`. -/
def c1ItemA : ChatItem := ⟨[], "jpg".toList, ['D'], [], ['X'], [], []⟩

/-- Chat item with sender `X` and raw date `D_02`; its base key is
`X_D_02`, distinct from the key of `c1ItemA`. -/
def c1ItemB : ChatItem := ⟨[], "jpg".toList, "D_02".toList, [], ['X'], [], []⟩

/-- Chat item with a well-formed ISO timestamp. -/
def c1WitChat : ChatItem :=
  ⟨[], "jpg".toList, "2026-01-12T22:18:37Z".toList, [], "Ms. Teacher".toList, [], []⟩

/-- Home item with a well-formed timestamp and a dot-free child name. -/
def c1WitHome : HomeItem :=
  ⟨[], "jpg".toList, "2026-01-12 21:19:51".toList, "Bluey Heeler".toList, [], []⟩

/-- A media-bearing message entry from sender 1. -/
def c2Media : ChatMessage := ⟨some 1, some "img", some "[image]", some 1000⟩

/-- A text entry from a different sender, never qualifying for sender 1. -/
def c2Junk : ChatMessage := ⟨some 2, some "txt", some "spam", some 1000⟩

/-- A qualifying text entry from sender 1 within the time window. -/
def c2Good : ChatMessage := ⟨some 1, some "txt", some "hello", some 1000⟩

/-- A conversation where the only qualifying text sits exactly 20 positions
away from the media entry at index 0. -/
def c2Items : List ChatMessage := c2Media :: (List.replicate 19 c2Junk ++ [c2Good])

/-- The example grouping key `Bluey's Photos!` (the sixth character is the
apostrophe). -/
def blueyName : List Char :=
  ['B', 'l', 'u', 'e', 'y', Char.ofNat 39, 's', ' ', 'P', 'h', 'o', 't', 'o', 's', '!']

/-- A dateless chat item from sender `A`. -/
def c10Chat : ChatItem := ⟨[], "jpg".toList, [], [], ['A'], [], []⟩

/-- A dateless home item for child `A`. -/
def c10Home : HomeItem := ⟨[], "jpg".toList, [], ['A'], [], []⟩

/-- A chat item whose computed target file already exists in `c6Disk`. -/
def c6Item : ChatItem := ⟨"u".toList, "jpg".toList, [], [], ['A'], [], []⟩

/-- A disk already containing the one target path of `c6Item`. -/
def c6Disk : List (List Char) := [pathJoin "out".toList "A_unknown_date.jpg".toList]

/-- A chat item whose URL fetch succeeds under `c7Fetch`. -/
def c7Item1 : ChatItem := ⟨"good".toList, "jpg".toList, [], [], ['A'], [], []⟩

/-- A chat item whose URL fetch fails under `c7Fetch`. -/
def c7Item2 : ChatItem := ⟨"bad".toList, "mp4".toList, [], [], ['B'], [], []⟩

/-- A fetch oracle failing exactly on the URL `bad`. -/
def c7Fetch : List Char → Option String :=
  fun url => if url = "bad".toList then some "boom" else none

/-! ## Lemmas: decimal rendering -/

theorem decDigit_toNat {n : Nat} (h : n < 10) : (decDigit n).toNat = 48 + n := by
  interval_cases n <;> rfl

theorem decDigit_props {n : Nat} (h : n < 10) :
    (decDigit n).isDigit = true ∧ decDigit n ≠ '_' ∧ decDigit n ≠ '.' := by
  interval_cases n <;> exact ⟨by decide, by decide, by decide⟩

theorem decAux_zero (fuel : Nat) : decAux fuel 0 = [] := by
  cases fuel <;> rfl

theorem decAux_succ {fuel n : Nat} (h : n ≠ 0) :
    decAux (fuel + 1) n = decAux fuel (n / 10) ++ [decDigit (n % 10)] := by
  simp [decAux, h]

theorem ofDec_append_digit (l : List Char) (c : Char) :
    ofDec (l ++ [c]) = ofDec l * 10 + (c.toNat - 48) := by
  simp [ofDec, List.foldl_append]

theorem ofDec_decAux : ∀ fuel n, n ≤ fuel → ofDec (decAux fuel n) = n := by
  intro fuel
  induction fuel with
  | zero =>
    intro n h
    interval_cases n
    rfl
  | succ fuel ih =>
    intro n h
    by_cases h0 : n = 0
    · subst h0
      simp [decAux_zero, ofDec]
    · have hlt : n / 10 < n := Nat.div_lt_self (Nat.pos_of_ne_zero h0) (by norm_num)
      rw [decAux_succ h0, ofDec_append_digit, ih _ (by omega),
        decDigit_toNat (Nat.mod_lt n (by norm_num))]
      omega

theorem decRepr_inj {m n : Nat} (h : decRepr m = decRepr n) : m = n := by
  have hm := ofDec_decAux m m (Nat.le_refl m)
  have hn := ofDec_decAux n n (Nat.le_refl n)
  rw [decRepr, decRepr] at h
  rw [← hm, ← hn, h]

theorem decAux_mem : ∀ fuel n, ∀ c ∈ decAux fuel n,
    c.isDigit = true ∧ c ≠ '_' ∧ c ≠ '.' := by
  intro fuel
  induction fuel with
  | zero => intro n c hc; simp [decAux] at hc
  | succ fuel ih =>
    intro n c hc
    by_cases h0 : n = 0
    · subst h0; simp [decAux_zero] at hc
    · rw [decAux_succ h0] at hc
      rcases List.mem_append.mp hc with hc | hc
      · exact ih _ c hc
      · rcases List.mem_singleton.mp hc with rfl
        exact decDigit_props (Nat.mod_lt n (by norm_num))

theorem decAux_ne_nil {fuel n : Nat} (h0 : 0 < n) (hle : n ≤ fuel) :
    decAux fuel n ≠ [] := by
  cases fuel with
  | zero => omega
  | succ fuel =>
    rw [decAux_succ (by omega)]
    simp

theorem decAux_head_ne_zero : ∀ fuel n, 0 < n → n ≤ fuel →
    ∀ c, (decAux fuel n).head? = some c → c ≠ '0' := by
  intro fuel
  induction fuel with
  | zero => intro n h0 hle; omega
  | succ fuel ih =>
    intro n h0 hle c hc
    rw [decAux_succ (by omega)] at hc
    by_cases hd : n / 10 = 0
    · rw [hd, decAux_zero, List.nil_append] at hc
      have h10 : n < 10 := by omega
      have hmod : n % 10 = n := Nat.mod_eq_of_lt h10
      rw [hmod] at hc
      have : c = decDigit n := by simpa using hc.symm
      subst this
      intro heq
      have := decDigit_toNat h10
      rw [heq] at this
      simp at this
      omega
    · have hdle : n / 10 ≤ fuel := by
        have := Nat.div_lt_self h0 (by norm_num : 1 < 10)
        omega
      rw [List.head?_append] at hc
      cases hh : (decAux fuel (n / 10)).head? with
      | none =>
        exact absurd (List.head?_eq_none_iff.mp hh) (decAux_ne_nil (by omega) hdle)
      | some x =>
        rw [hh] at hc
        simp at hc
        subst hc
        exact ih _ (by omega) hdle x hh

theorem decRepr_small {n : Nat} (h1 : 1 ≤ n) (h2 : n < 10) :
    decRepr n = [decDigit n] := by
  rw [decRepr]
  cases n with
  | zero => omega
  | succ k =>
    rw [decAux_succ (by omega)]
    have : (k + 1) / 10 = 0 := by omega
    rw [this, decAux_zero, Nat.mod_eq_of_lt h2]
    rfl

theorem decRepr_large_len {n : Nat} (h : 10 ≤ n) : 2 ≤ (decRepr n).length := by
  rw [decRepr]
  cases n with
  | zero => omega
  | succ k =>
    rw [decAux_succ (by omega)]
    rw [List.length_append]
    have h1 : 0 < (k + 1) / 10 := by omega
    have h2 : (k + 1) / 10 ≤ k := by omega
    have := decAux_ne_nil h1 h2
    have hlen : 0 < (decAux k ((k + 1) / 10)).length := List.length_pos.mpr this
    simp
    omega

theorem fmt02_small {n : Nat} (h1 : 1 ≤ n) (h2 : n < 10) :
    fmt02 n = ['0', decDigit n] := by
  rw [fmt02, decRepr_small h1 h2]
  rfl

theorem fmt02_large {n : Nat} (h : 10 ≤ n) : fmt02 n = decRepr n := by
  rw [fmt02]
  have := decRepr_large_len h
  have : 2 - (decRepr n).length = 0 := by omega
  rw [this]
  rfl

theorem fmt02_mem {n : Nat} : ∀ c ∈ fmt02 n, c.isDigit = true ∧ c ≠ '_' ∧ c ≠ '.' := by
  intro c hc
  rw [fmt02] at hc
  rcases List.mem_append.mp hc with hc | hc
  · rcases (List.eq_of_mem_replicate hc) with rfl
    exact ⟨by decide, by decide, by decide⟩
  · exact decAux_mem _ _ c hc

theorem fmt02_len {n : Nat} : 2 ≤ (fmt02 n).length := by
  rw [fmt02, List.length_append, List.length_replicate]
  omega

theorem fmt02_inj {m n : Nat} (hm : 1 ≤ m) (hn : 1 ≤ n) (h : fmt02 m = fmt02 n) :
    m = n := by
  by_cases hm10 : m < 10 <;> by_cases hn10 : n < 10
  · rw [fmt02_small hm hm10, fmt02_small hn hn10] at h
    have : decDigit m = decDigit n := by simpa using h
    have hmt := decDigit_toNat hm10
    have hnt := decDigit_toNat hn10
    rw [this] at hmt
    omega
  · exfalso
    rw [fmt02_small hm hm10, fmt02_large (by omega)] at h
    cases hh : (decRepr n).head? with
    | none =>
      rw [List.head?_eq_none_iff] at hh
      rw [hh] at h
      simp at h
    | some c =>
      have hc0 : c = '0' := by
        rw [← h] at hh
        simpa using hh.symm
      exact decAux_head_ne_zero n n (by omega) (Nat.le_refl n) c hh (by rw [hc0])
  · exfalso
    rw [fmt02_small hn hn10, fmt02_large (by omega)] at h
    cases hh : (decRepr m).head? with
    | none =>
      rw [List.head?_eq_none_iff] at hh
      rw [hh] at h
      simp at h
    | some c =>
      have hc0 : c = '0' := by
        rw [h] at hh
        simpa using hh.symm
      exact decAux_head_ne_zero m m (by omega) (Nat.le_refl m) c hh (by rw [hc0])
  · rw [fmt02_large (by omega), fmt02_large (by omega)] at h
    exact decRepr_inj h

/-! ## Lemmas: splitting filenames at a separator character -/

theorem splitAtChar (ch : Char) : ∀ (a1 b1 a2 b2 : List Char),
    a1 ++ ch :: b1 = a2 ++ ch :: b2 → (∀ c ∈ a1, c ≠ ch) → (∀ c ∈ a2, c ≠ ch) →
    a1 = a2 ∧ b1 = b2 := by
  intro a1
  induction a1 with
  | nil =>
    intro b1 a2 b2 h h1 h2
    cases a2 with
    | nil => simpa using h
    | cons x a2 =>
      simp only [List.nil_append, List.cons_append, List.cons.injEq] at h
      exact absurd h.1.symm (h2 x (by simp))
  | cons x a1 ih =>
    intro b1 a2 b2 h h1 h2
    cases a2 with
    | nil =>
      simp only [List.nil_append, List.cons_append, List.cons.injEq] at h
      exact absurd h.1 (h1 x (by simp))
    | cons y a2 =>
      simp only [List.cons_append, List.cons.injEq] at h
      obtain ⟨rfl, h⟩ := h
      obtain ⟨ha, hb⟩ := ih b1 a2 b2 h (fun c hc => h1 c (by simp [hc]))
        (fun c hc => h2 c (by simp [hc]))
      exact ⟨by rw [ha], hb⟩

/-! ## Lemmas: injectivity of generated filenames -/

theorem mkName_eq (base : List Char) (count : Nat) (ext : List Char) :
    mkName base count ext =
      (base ++ (if count > 1 then '_' :: fmt02 count else [])) ++ '.' :: ext := by
  rw [mkName]
  by_cases h : count > 1 <;> simp [h]

theorem mkName_count_ne {k e1 e2 : List Char} {c1 c2 : Nat}
    (h1 : 1 ≤ c1) (h2 : 1 ≤ c2) (hne : c1 ≠ c2) :
    mkName k c1 e1 ≠ mkName k c2 e2 := by
  intro heq
  rw [mkName_eq, mkName_eq, List.append_assoc, List.append_assoc] at heq
  have heq2 := List.append_cancel_left heq
  by_cases g1 : c1 > 1 <;> by_cases g2 : c2 > 1
  · simp only [if_pos g1, if_pos g2, List.cons_append, List.cons.injEq] at heq2
    have := splitAtChar '.' (fmt02 c1) e1 (fmt02 c2) e2 heq2.2
      (fun c hc => (fmt02_mem c hc).2.2) (fun c hc => (fmt02_mem c hc).2.2)
    exact hne (fmt02_inj h1 h2 this.1)
  · simp only [if_pos g1, if_neg g2, List.cons_append, List.nil_append,
      List.cons.injEq] at heq2
    exact absurd heq2.1 (by decide)
  · simp only [if_neg g1, if_pos g2, List.cons_append, List.nil_append,
      List.cons.injEq] at heq2
    exact absurd heq2.1 (by decide)
  · omega

theorem goodKey_ne_suffixed {k1 k2 : List Char} (g : GoodKey k1) (c : Nat) :
    k1 ≠ k2 ++ '_' :: fmt02 c := by
  intro heq
  obtain ⟨-, r0, r1, r2, rest, hrev, hdig, hund⟩ := g
  have hrev2 : k1.reverse = (fmt02 c).reverse ++ '_' :: k2.reverse := by
    rw [heq]
    simp
  obtain ⟨x0, t1, hx⟩ : ∃ x0 t1, (fmt02 c).reverse = x0 :: t1 := by
    cases hf : (fmt02 c).reverse with
    | nil =>
      exfalso
      have := fmt02_len (n := c)
      rw [← List.length_reverse, hf] at this
      simp at this
    | cons x0 t1 => exact ⟨x0, t1, rfl⟩
  obtain ⟨x1, t2, ht⟩ : ∃ x1 t2, t1 = x1 :: t2 := by
    cases hf : t1 with
    | nil =>
      exfalso
      have := fmt02_len (n := c)
      rw [← List.length_reverse, hx, hf] at this
      simp at this
    | cons x1 t2 => exact ⟨x1, t2, rfl⟩
  rw [hx, ht] at hrev2
  rw [hrev] at hrev2
  simp only [List.cons_append, List.cons.injEq] at hrev2
  obtain ⟨-, -, h3⟩ := hrev2
  cases t2 with
  | nil =>
    simp at h3
    exact hund h3.1
  | cons z t3 =>
    simp only [List.cons_append, List.cons.injEq] at h3
    have hz : z ∈ fmt02 c := by
      have : z ∈ (fmt02 c).reverse := by
        rw [hx, ht]
        simp
      simpa using this
    have := (fmt02_mem z hz).1
    rw [← h3.1] at this
    rw [this] at hdig
    simp at hdig

theorem mkName_key_ne {k1 k2 e1 e2 : List Char} {c1 c2 : Nat}
    (g1 : GoodKey k1) (g2 : GoodKey k2)
    (hk : k1 ≠ k2) : mkName k1 c1 e1 ≠ mkName k2 c2 e2 := by
  intro heq
  rw [mkName_eq, mkName_eq] at heq
  have hnodot1 : ∀ c ∈ k1 ++ (if c1 > 1 then '_' :: fmt02 c1 else []), c ≠ '.' := by
    intro c hc
    rcases List.mem_append.mp hc with hc | hc
    · exact g1.1 c hc
    · by_cases g : c1 > 1
      · rw [if_pos g] at hc
        rcases List.mem_cons.mp hc with rfl | hc
        · decide
        · exact (fmt02_mem c hc).2.2
      · rw [if_neg g] at hc
        simp at hc
  have hnodot2 : ∀ c ∈ k2 ++ (if c2 > 1 then '_' :: fmt02 c2 else []), c ≠ '.' := by
    intro c hc
    rcases List.mem_append.mp hc with hc | hc
    · exact g2.1 c hc
    · by_cases g : c2 > 1
      · rw [if_pos g] at hc
        rcases List.mem_cons.mp hc with rfl | hc
        · decide
        · exact (fmt02_mem c hc).2.2
      · rw [if_neg g] at hc
        simp at hc
  have hsplit := splitAtChar '.' _ e1 _ e2 heq hnodot1 hnodot2
  have hbase := hsplit.1
  by_cases ga : c1 > 1 <;> by_cases gb : c2 > 1
  · rw [if_pos ga, if_pos gb] at hbase
    have hrev : (fmt02 c1).reverse ++ '_' :: k1.reverse =
        (fmt02 c2).reverse ++ '_' :: k2.reverse := by
      have := congrArg List.reverse hbase
      simpa using this
    have := splitAtChar '_' _ _ _ _ hrev
      (fun c hc => (fmt02_mem c (by simpa using hc)).2.1)
      (fun c hc => (fmt02_mem c (by simpa using hc)).2.1)
    exact hk (List.reverse_injective this.2)
  · rw [if_pos ga, if_neg gb, List.append_nil] at hbase
    exact goodKey_ne_suffixed g2 c1 hbase.symm
  · rw [if_neg ga, if_pos gb, List.append_nil] at hbase
    exact goodKey_ne_suffixed g1 c2 hbase
  · rw [if_neg ga, if_neg gb, List.append_nil, List.append_nil] at hbase
    exact hk hbase

/-! ## Lemmas: character classes and the date formatters -/

theorem digit_ne_special {c : Char} (h : c.isDigit = true) :
    c ≠ '.' ∧ c ≠ '_' ∧ c ≠ 'T' ∧ c ≠ 'Z' ∧ c ≠ ':' ∧ c ≠ ' ' := by
  refine ⟨?_, ?_, ?_, ?_, ?_, ?_⟩ <;>
    (intro heq; subst heq; exact absurd h (by decide))

theorem chatFormatDate_append (x y : List Char) :
    chatFormatDate (x ++ y) = chatFormatDate x ++ chatFormatDate y := by
  simp [chatFormatDate, List.filter_append]

theorem chatFormatDate_mem {d : List Char} {c : Char} (h : c ∈ chatFormatDate d) :
    c = '_' ∨ c = '-' ∨ c ∈ d := by
  rw [chatFormatDate] at h
  rcases List.mem_map.mp h with ⟨c1, hc1, rfl⟩
  have hc2 := (List.mem_filter.mp hc1).1
  rcases List.mem_map.mp hc2 with ⟨c0, hc0, rfl⟩
  by_cases h0 : c0 = 'T'
  · subst h0
    simp
  · rw [if_neg h0]
    by_cases h1 : c0 = ':'
    · subst h1
      simp
    · rw [if_neg h1]
      exact Or.inr (Or.inr hc0)

theorem homeFormatDate_append (x y : List Char) :
    homeFormatDate (x ++ y) = homeFormatDate x ++ homeFormatDate y := by
  simp [homeFormatDate]

theorem homeFormatDate_mem {d : List Char} {c : Char} (h : c ∈ homeFormatDate d) :
    c = '_' ∨ c = '-' ∨ c ∈ d := by
  rw [homeFormatDate] at h
  rcases List.mem_map.mp h with ⟨c1, hc1, rfl⟩
  rcases List.mem_map.mp hc1 with ⟨c0, hc0, rfl⟩
  by_cases h0 : c0 = ' '
  · subst h0
    simp
  · rw [if_neg h0]
    by_cases h1 : c0 = ':'
    · subst h1
      simp
    · rw [if_neg h1]
      exact Or.inr (Or.inr hc0)

theorem chatDatePart_tail {d : List Char} (h : d = [] ∨ IsChatIso d) :
    (∀ c ∈ chatDatePart d, c ≠ '.') ∧
    ∃ r0 r1 r2 rest, (chatDatePart d).reverse = r0 :: r1 :: r2 :: rest ∧
      r2.isDigit = false ∧ r2 ≠ '_' := by
  rcases h with rfl | h
  · exact ⟨by decide, 'e', 't', 'a', "d_nwonknu".toList, by decide, by decide, by decide⟩
  · obtain ⟨y1, y2, y3, y4, mo1, mo2, d1, d2, h1, h2, mi1, mi2, s1, s2, rfl, hdig⟩ := h
    have hs1 := digit_ne_special (hdig s1 (by simp))
    have hs2 := digit_ne_special (hdig s2 (by simp))
    have hsplit : ([y1, y2, y3, y4, '-', mo1, mo2, '-', d1, d2, 'T',
        h1, h2, ':', mi1, mi2, ':', s1, s2, 'Z'] : List Char) =
        [y1, y2, y3, y4, '-', mo1, mo2, '-', d1, d2, 'T', h1, h2, ':', mi1, mi2] ++
        [':', s1, s2, 'Z'] := rfl
    have hne : ([y1, y2, y3, y4, '-', mo1, mo2, '-', d1, d2, 'T',
        h1, h2, ':', mi1, mi2, ':', s1, s2, 'Z'] : List Char) ≠ [] := by simp
    have hpart : chatDatePart [y1, y2, y3, y4, '-', mo1, mo2, '-', d1, d2, 'T',
        h1, h2, ':', mi1, mi2, ':', s1, s2, 'Z'] =
        chatFormatDate [y1, y2, y3, y4, '-', mo1, mo2, '-', d1, d2, 'T',
          h1, h2, ':', mi1, mi2] ++ ['-', s1, s2] := by
      rw [chatDatePart, if_neg hne, hsplit, chatFormatDate_append]
      congr 1
      simp [chatFormatDate, hs1.2.2.1, hs1.2.2.2.1, hs1.2.2.2.2.1,
        hs2.2.2.1, hs2.2.2.2.1, hs2.2.2.2.2.1]
    constructor
    · intro c hc
      rw [hpart] at hc
      rcases List.mem_append.mp hc with hc | hc
      · rcases chatFormatDate_mem hc with rfl | rfl | hc
        · decide
        · decide
        · simp only [List.mem_cons, List.not_mem_nil, or_false] at hc
          rcases hc with rfl | rfl | rfl | rfl | rfl | rfl | rfl | rfl |
            rfl | rfl | rfl | rfl | rfl | rfl | rfl | rfl
          all_goals first
            | decide
            | exact (digit_ne_special (hdig _ (by simp))).1
      · simp only [List.mem_cons, List.not_mem_nil, or_false] at hc
        rcases hc with rfl | rfl | rfl
        · decide
        · exact hs1.1
        · exact hs2.1
    · refine ⟨s2, s1, '-',
        (chatFormatDate [y1, y2, y3, y4, '-', mo1, mo2, '-', d1, d2, 'T',
          h1, h2, ':', mi1, mi2]).reverse, ?_, by decide, by decide⟩
      rw [hpart]
      simp

theorem homeDatePart_tail {d : List Char} (h : d = [] ∨ IsHomeIso d) :
    (∀ c ∈ homeDatePart d, c ≠ '.') ∧
    ∃ r0 r1 r2 rest, (homeDatePart d).reverse = r0 :: r1 :: r2 :: rest ∧
      r2.isDigit = false ∧ r2 ≠ '_' := by
  rcases h with rfl | h
  · exact ⟨by decide, 'e', 't', 'a', "d_nwonknu".toList, by decide, by decide, by decide⟩
  · obtain ⟨y1, y2, y3, y4, mo1, mo2, d1, d2, h1, h2, mi1, mi2, s1, s2, rfl, hdig⟩ := h
    have hs1 := digit_ne_special (hdig s1 (by simp))
    have hs2 := digit_ne_special (hdig s2 (by simp))
    have hsplit : ([y1, y2, y3, y4, '-', mo1, mo2, '-', d1, d2, ' ',
        h1, h2, ':', mi1, mi2, ':', s1, s2] : List Char) =
        [y1, y2, y3, y4, '-', mo1, mo2, '-', d1, d2, ' ', h1, h2, ':', mi1, mi2] ++
        [':', s1, s2] := rfl
    have hne : ([y1, y2, y3, y4, '-', mo1, mo2, '-', d1, d2, ' ',
        h1, h2, ':', mi1, mi2, ':', s1, s2] : List Char) ≠ [] := by simp
    have hpart : homeDatePart [y1, y2, y3, y4, '-', mo1, mo2, '-', d1, d2, ' ',
        h1, h2, ':', mi1, mi2, ':', s1, s2] =
        homeFormatDate [y1, y2, y3, y4, '-', mo1, mo2, '-', d1, d2, ' ',
          h1, h2, ':', mi1, mi2] ++ ['-', s1, s2] := by
      rw [homeDatePart, if_neg hne, hsplit, homeFormatDate_append]
      congr 1
      simp [homeFormatDate, hs1.2.2.2.2.1, hs1.2.2.2.2.2,
        hs2.2.2.2.2.1, hs2.2.2.2.2.2]
    constructor
    · intro c hc
      rw [hpart] at hc
      rcases List.mem_append.mp hc with hc | hc
      · rcases homeFormatDate_mem hc with rfl | rfl | hc
        · decide
        · decide
        · simp only [List.mem_cons, List.not_mem_nil, or_false] at hc
          rcases hc with rfl | rfl | rfl | rfl | rfl | rfl | rfl | rfl |
            rfl | rfl | rfl | rfl | rfl | rfl | rfl | rfl
          all_goals first
            | decide
            | exact (digit_ne_special (hdig _ (by simp))).1
      · simp only [List.mem_cons, List.not_mem_nil, or_false] at hc
        rcases hc with rfl | rfl | rfl
        · decide
        · exact hs1.1
        · exact hs2.1
    · refine ⟨s2, s1, '-',
        (homeFormatDate [y1, y2, y3, y4, '-', mo1, mo2, '-', d1, d2, ' ',
          h1, h2, ':', mi1, mi2]).reverse, ?_, by decide, by decide⟩
      rw [hpart]
      simp

theorem chatKey_good {it : ChatItem} (h : ChatWF it) : GoodKey (chatKey it) := by
  obtain ⟨hdot, r0, r1, r2, rest, hrev, hd, hu⟩ := chatDatePart_tail h
  constructor
  · intro c hc
    rw [chatKey] at hc
    rcases List.mem_append.mp hc with hc | hc
    · have hp := (List.mem_filter.mp hc).2
      simpa using hp
    · rcases List.mem_cons.mp hc with rfl | hc
      · decide
      · exact hdot c hc
  · refine ⟨r0, r1, r2, rest ++ '_' :: (chatSanitizeSender it.sender).reverse, ?_, hd, hu⟩
    rw [chatKey]
    simp [List.reverse_append, hrev]

theorem homeKey_good {it : HomeItem} (h : HomeWF it) : GoodKey (homeKey it) := by
  obtain ⟨hdate, hchild⟩ := h
  obtain ⟨hdot, r0, r1, r2, rest, hrev, hd, hu⟩ := homeDatePart_tail hdate
  constructor
  · intro c hc
    rw [homeKey] at hc
    rcases List.mem_append.mp hc with hc | hc
    · rcases List.mem_map.mp hc with ⟨c0, hc0, rfl⟩
      by_cases h0 : c0 = ' '
      · subst h0
        simp
      · rw [if_neg h0]
        exact hchild c0 hc0
    · rcases List.mem_cons.mp hc with rfl | hc
      · decide
      · exact hdot c hc
  · refine ⟨r0, r1, r2, rest ++ '_' :: (homeSanitizeChild it.child).reverse, ?_, hd, hu⟩
    rw [homeKey]
    simp [List.reverse_append, hrev]

/-! ## Lemmas: the per-run filename assignment fold -/

theorem assignAux_length {α : Type}
    (gen : α → (List Char → Nat) → List Char × (List Char → Nat)) :
    ∀ (items : List α) (counts : List Char → Nat),
      (assignAux gen counts items).length = items.length := by
  intro items
  induction items with
  | nil => intro counts; rfl
  | cons it rest ih =>
    intro counts
    simp [assignAux, ih]

theorem assignAux_getElem? {α : Type}
    (gen : α → (List Char → Nat) → List Char × (List Char → Nat))
    (keyF extF : α → List Char)
    (hgen : ∀ it counts, gen it counts =
      (mkName (keyF it) (counts (keyF it) + 1) (extF it),
       fun k => if k = keyF it then counts (keyF it) + 1 else counts k)) :
    ∀ (items : List α) (counts : List Char → Nat) (i : Nat),
      (assignAux gen counts items)[i]? = (items[i]?).map
        (fun it => mkName (keyF it)
          (counts (keyF it) + keyOcc keyF (items.take i) (keyF it) + 1) (extF it)) := by
  intro items
  induction items with
  | nil => intro counts i; simp [assignAux]
  | cons it rest ih =>
    intro counts i
    have hstep : assignAux gen counts (it :: rest) =
        (gen it counts).1 :: assignAux gen (gen it counts).2 rest := rfl
    cases i with
    | zero =>
      rw [hstep]
      simp [hgen, keyOcc]
    | succ j =>
      rw [hstep, List.getElem?_cons_succ, List.getElem?_cons_succ, ih]
      cases hj : rest[j]? with
      | none => rfl
      | some it2 =>
        simp only [Option.map_some']
        have hcnt : (gen it counts).2 (keyF it2) + keyOcc keyF (rest.take j) (keyF it2)
            = counts (keyF it2) + keyOcc keyF ((it :: rest).take (j + 1)) (keyF it2) := by
          rw [hgen]
          simp only [List.take_succ_cons, keyOcc, List.countP_cons]
          by_cases hk : keyF it2 = keyF it
          · rw [if_pos hk, hk]
            simp
            omega
          · rw [if_neg hk]
            have : (decide (keyF it = keyF it2)) = false := by
              simp
              exact fun hh => hk hh.symm
            rw [this]
            simp
        rw [hcnt]

/-! ## Lemmas: the first pass of `download_media` -/

theorem planAux_nil_of_exists {α : Type}
    (gen : α → (List Char → Nat) → List Char × (List Char → Nat))
    (dir : List Char) (disk : List (List Char)) :
    ∀ (items : List α) (counts : List Char → Nat),
      (∀ p ∈ (assignAux gen counts items).map (pathJoin dir), p ∈ disk) →
      (planAux gen dir disk counts items).2 = [] := by
  intro items
  induction items with
  | nil => intro counts _; rfl
  | cons it rest ih =>
    intro counts h
    have hmem : pathJoin dir (gen it counts).1 ∈ disk := by
      apply h
      simp [assignAux]
    have hstep : planAux gen dir disk counts (it :: rest) =
        if pathJoin dir (gen it counts).1 ∈ disk then
          ((planAux gen dir disk (gen it counts).2 rest).1 + 1,
           (planAux gen dir disk (gen it counts).2 rest).2)
        else ((planAux gen dir disk (gen it counts).2 rest).1,
          (it, pathJoin dir (gen it counts).1) ::
            (planAux gen dir disk (gen it counts).2 rest).2) := rfl
    rw [hstep, if_pos hmem]
    exact ih _ (fun p hp => h p (by
      simp only [assignAux, List.map_cons, List.mem_cons]
      exact Or.inr hp))

theorem chat_gen_eq : ∀ (it : ChatItem) (counts : List Char → Nat),
    DownloadChat.generate_filename it counts =
      (mkName (chatKey it) (counts (chatKey it) + 1) it.file_type,
       fun k => if k = chatKey it then counts (chatKey it) + 1 else counts k) := by
  intro it counts
  rfl

theorem home_gen_eq : ∀ (it : HomeItem) (counts : List Char → Nat),
    DownloadHome.generate_filename it counts =
      (mkName (homeKey it) (counts (homeKey it) + 1) it.fileType,
       fun k => if k = homeKey it then counts (homeKey it) + 1 else counts k) := by
  intro it counts
  rfl

/-! ## Lemmas: occurrence counts along a prefix of the item list -/

theorem keyOcc_take_succ {α : Type} (keyF : α → List Char) (items : List α) {i : Nat}
    (hi : i < items.length) :
    keyOcc keyF (items.take (i + 1)) (keyF items[i]) =
      keyOcc keyF (items.take i) (keyF items[i]) + 1 := by
  rw [keyOcc, keyOcc, List.take_succ, List.getElem?_eq_getElem hi]
  rw [List.countP_append]
  simp

theorem keyOcc_take_le {α : Type} (keyF : α → List Char) (items : List α) (k : List Char)
    {m n : Nat} (h : m ≤ n) :
    keyOcc keyF (items.take m) k ≤ keyOcc keyF (items.take n) k := by
  have h1 : items.take m = (items.take n).take m := by
    rw [List.take_take, Nat.min_eq_left h]
  rw [h1, keyOcc, keyOcc]
  conv_rhs => rw [← List.take_append_drop m (items.take n)]
  rw [List.countP_append]
  omega

theorem assign_ne {α : Type}
    (gen : α → (List Char → Nat) → List Char × (List Char → Nat))
    (keyF extF : α → List Char)
    (hgen : ∀ it counts, gen it counts =
      (mkName (keyF it) (counts (keyF it) + 1) (extF it),
       fun k => if k = keyF it then counts (keyF it) + 1 else counts k))
    (items : List α) {i j : Nat} (hij : i < j) (hj : j < items.length)
    (hcond : ∀ iti itj, items[i]? = some iti → items[j]? = some itj →
      keyF iti = keyF itj ∨
      (GoodKey (keyF iti) ∧ GoodKey (keyF itj) ∧ keyF iti ≠ keyF itj)) :
    ∀ f1 f2, (assignAux gen (fun _ => 0) items)[i]? = some f1 →
      (assignAux gen (fun _ => 0) items)[j]? = some f2 → f1 ≠ f2 := by
  intro f1 f2 hf1 hf2
  have hi : i < items.length := Nat.lt_trans hij hj
  have hgi := assignAux_getElem? gen keyF extF hgen items (fun _ => 0) i
  have hgj := assignAux_getElem? gen keyF extF hgen items (fun _ => 0) j
  rw [hf1, List.getElem?_eq_getElem hi] at hgi
  rw [hf2, List.getElem?_eq_getElem hj] at hgj
  simp only [Option.map_some', Option.some.injEq] at hgi hgj
  subst hgi
  subst hgj
  rcases hcond items[i] items[j] (List.getElem?_eq_getElem hi)
      (List.getElem?_eq_getElem hj) with hk | ⟨g1, g2, hk⟩
  · rw [hk]
    apply mkName_count_ne (by omega) (by omega)
    have hstep := keyOcc_take_succ keyF items hi
    have hmono := keyOcc_take_le keyF items (keyF items[i]) (m := i + 1) (n := j) hij
    rw [hk] at hstep hmono
    omega
  · exact mkName_key_ne g1 g2 hk

/-! ## Lemmas: the download phase -/

theorem collectNewly_perm {r1 r2 : List FetchResult} (h : r1.Perm r2) :
    (collectNewly r1).Perm (collectNewly r2) :=
  (h.filter _).map _

theorem collectNewly_cons (r : FetchResult) (rs : List FetchResult) :
    collectNewly (r :: rs) = if r.error.isNone then
      NewFile.mk r.filepath r.date r.file_type r.title r.description :: collectNewly rs
    else collectNewly rs := by
  rw [collectNewly, List.filter_cons]
  by_cases h : r.error.isNone = true
  · rw [if_pos h, if_pos h, List.map_cons]
    rfl
  · rw [if_neg h, if_neg h]
    rfl

theorem collectNewly_map {β : Type} (f : β → FetchResult) (p : β → Bool)
    (g : β → NewFile)
    (hp : ∀ b, (f b).error.isNone = p b)
    (hg : ∀ b, NewFile.mk (f b).filepath (f b).date (f b).file_type (f b).title
      (f b).description = g b) :
    ∀ l : List β, collectNewly (l.map f) = (l.filter p).map g := by
  intro l
  induction l with
  | nil => rfl
  | cons b rest ih =>
    rw [List.map_cons, collectNewly_cons, List.filter_cons, hp b]
    cases hpb : p b <;> simp [hpb, ih, hg b]

theorem chat_download_one_spec (fetchErr : List Char → Option String)
    (pr : ChatItem × List Char) :
    (DownloadChat.download_one fetchErr pr).error = fetchErr pr.1.url ∧
    NewFile.mk (DownloadChat.download_one fetchErr pr).filepath
      (DownloadChat.download_one fetchErr pr).date
      (DownloadChat.download_one fetchErr pr).file_type
      (DownloadChat.download_one fetchErr pr).title
      (DownloadChat.download_one fetchErr pr).description =
      ⟨pr.2, pr.1.date, pr.1.file_type, pr.1.title, pr.1.description⟩ := by
  cases h : fetchErr pr.1.url <;> simp [DownloadChat.download_one, h]

theorem home_download_one_spec (fetchErr : List Char → Option String)
    (pr : HomeItem × List Char) :
    (DownloadHome.download_one fetchErr pr).error = fetchErr pr.1.url ∧
    NewFile.mk (DownloadHome.download_one fetchErr pr).filepath
      (DownloadHome.download_one fetchErr pr).date
      (DownloadHome.download_one fetchErr pr).file_type
      (DownloadHome.download_one fetchErr pr).title
      (DownloadHome.download_one fetchErr pr).description =
      ⟨pr.2, pr.1.date, pr.1.fileType, pr.1.title, pr.1.description⟩ := by
  cases h : fetchErr pr.1.url <;> simp [DownloadHome.download_one, h]

/-! ## Claim C1 -/

/-- C1: processed in order through a single run's counter, items sharing
the same base key get the bare name first and then strictly increasing
two-digit suffixes (the formula conjuncts, with `keyOcc` counting earlier
items of the same key); and the full filename lists are collision-free,
for the chat script provided each timestamp is empty or a well-formed ISO
timestamp, and for the home script provided additionally child names
contain no dot.  Over arbitrary timestamp strings the collision-freedom
part fails, see the counterexample. -/
theorem claim_c1 :
    (∀ (items : List ChatItem) (i : Nat),
      (DownloadChat.assignFilenames items)[i]? = (items[i]?).map
        (fun it => mkName (chatKey it)
          (keyOcc chatKey (items.take i) (chatKey it) + 1) it.file_type)) ∧
    (∀ items : List ChatItem, (∀ it ∈ items, ChatWF it) →
      List.Pairwise (fun a b => a ≠ b) (DownloadChat.assignFilenames items)) ∧
    (∀ (items : List HomeItem) (i : Nat),
      (DownloadHome.assignFilenames items)[i]? = (items[i]?).map
        (fun it => mkName (homeKey it)
          (keyOcc homeKey (items.take i) (homeKey it) + 1) it.fileType)) ∧
    (∀ items : List HomeItem, (∀ it ∈ items, HomeWF it) →
      List.Pairwise (fun a b => a ≠ b) (DownloadHome.assignFilenames items)) := by
  refine ⟨?_, ?_, ?_, ?_⟩
  · intro items i
    have h := assignAux_getElem? DownloadChat.generate_filename chatKey
      (fun it => it.file_type) chat_gen_eq items (fun _ => 0) i
    simpa [DownloadChat.assignFilenames] using h
  · intro items hwf
    rw [List.pairwise_iff_getElem]
    intro i j hi hj hij
    have hlen : (DownloadChat.assignFilenames items).length = items.length :=
      assignAux_length _ items _
    have hj2 : j < items.length := hlen ▸ hj
    have hi2 : i < items.length := hlen ▸ hi
    refine assign_ne DownloadChat.generate_filename chatKey (fun it => it.file_type)
      chat_gen_eq items hij hj2 ?_ _ _
      (List.getElem?_eq_getElem hi) (List.getElem?_eq_getElem hj)
    intro iti itj hgi hgj
    by_cases hk : chatKey iti = chatKey itj
    · exact Or.inl hk
    · exact Or.inr ⟨chatKey_good (hwf _ (List.getElem?_mem hgi)),
        chatKey_good (hwf _ (List.getElem?_mem hgj)), hk⟩
  · intro items i
    have h := assignAux_getElem? DownloadHome.generate_filename homeKey
      (fun it => it.fileType) home_gen_eq items (fun _ => 0) i
    simpa [DownloadHome.assignFilenames] using h
  · intro items hwf
    rw [List.pairwise_iff_getElem]
    intro i j hi hj hij
    have hlen : (DownloadHome.assignFilenames items).length = items.length :=
      assignAux_length _ items _
    have hj2 : j < items.length := hlen ▸ hj
    have hi2 : i < items.length := hlen ▸ hi
    refine assign_ne DownloadHome.generate_filename homeKey (fun it => it.fileType)
      home_gen_eq items hij hj2 ?_ _ _
      (List.getElem?_eq_getElem hi) (List.getElem?_eq_getElem hj)
    intro iti itj hgi hgj
    by_cases hk : homeKey iti = homeKey itj
    · exact Or.inl hk
    · exact Or.inr ⟨homeKey_good (hwf _ (List.getElem?_mem hgi)),
        homeKey_good (hwf _ (List.getElem?_mem hgj)), hk⟩

/-- Witness for C1 at concrete inputs with well-formed timestamps. -/
theorem claim_c1_witness :
    List.Pairwise (fun a b => a ≠ b)
      (DownloadChat.assignFilenames [c1WitChat, c1WitChat, c1WitChat]) ∧
    List.Pairwise (fun a b => a ≠ b)
      (DownloadHome.assignFilenames [c1WitHome, c1WitHome]) := by
  constructor
  · apply claim_c1.2.1
    intro it hit
    simp only [List.mem_cons, List.not_mem_nil, or_false] at hit
    rcases hit with rfl | rfl | rfl <;>
      exact Or.inr ⟨'2', '0', '2', '6', '0', '1', '1', '2', '2', '2', '1', '8',
        '3', '7', rfl, by decide⟩
  · apply claim_c1.2.2.2
    intro it hit
    simp only [List.mem_cons, List.not_mem_nil, or_false] at hit
    rcases hit with rfl | rfl <;>
      exact ⟨Or.inr ⟨'2', '0', '2', '6', '0', '1', '1', '2', '2', '1', '1', '9',
        '5', '1', rfl, by decide⟩, by decide⟩

/-- Counterexample to C1 as stated: over arbitrary timestamp strings, two
items with distinct base keys (`X_D` and `X_D_02`) receive the same
filename `X_D_02.jpg`. -/
theorem claim_c1_counterexample :
    chatKey c1ItemA ≠ chatKey c1ItemB ∧
    (DownloadChat.assignFilenames [c1ItemA, c1ItemA, c1ItemB])[1]? =
      some ("X_D_02.jpg".toList) ∧
    (DownloadChat.assignFilenames [c1ItemA, c1ItemA, c1ItemB])[2]? =
      some ("X_D_02.jpg".toList) := by
  refine ⟨by decide, by decide, by decide⟩

/-! ## Claim C10 -/

/-- C10: an empty timestamp is rendered as the literal `unknown_date`, and
the per-run counter applies to the `(owner, unknown_date)` key exactly as
to real timestamps, so distinct dateless items of the same owner get
distinct filenames; for both scripts. -/
theorem claim_c10 :
    (∀ (items : List ChatItem) (i : Nat) (it : ChatItem),
      items[i]? = some it → it.date_raw = [] →
      (DownloadChat.assignFilenames items)[i]? = some (mkName
        (chatSanitizeSender it.sender ++ '_' :: "unknown_date".toList)
        (keyOcc chatKey (items.take i) (chatKey it) + 1) it.file_type)) ∧
    (∀ (items : List ChatItem) (i j : Nat) (it1 it2 : ChatItem) (f1 f2 : List Char),
      i ≠ j → items[i]? = some it1 → items[j]? = some it2 →
      it1.date_raw = [] → it2.date_raw = [] →
      chatSanitizeSender it1.sender = chatSanitizeSender it2.sender →
      (DownloadChat.assignFilenames items)[i]? = some f1 →
      (DownloadChat.assignFilenames items)[j]? = some f2 → f1 ≠ f2) ∧
    (∀ (items : List HomeItem) (i : Nat) (it : HomeItem),
      items[i]? = some it → it.date = [] →
      (DownloadHome.assignFilenames items)[i]? = some (mkName
        (homeSanitizeChild it.child ++ '_' :: "unknown_date".toList)
        (keyOcc homeKey (items.take i) (homeKey it) + 1) it.fileType)) ∧
    (∀ (items : List HomeItem) (i j : Nat) (it1 it2 : HomeItem) (f1 f2 : List Char),
      i ≠ j → items[i]? = some it1 → items[j]? = some it2 →
      it1.date = [] → it2.date = [] →
      homeSanitizeChild it1.child = homeSanitizeChild it2.child →
      (DownloadHome.assignFilenames items)[i]? = some f1 →
      (DownloadHome.assignFilenames items)[j]? = some f2 → f1 ≠ f2) := by
  have hchatkey : ∀ it : ChatItem, it.date_raw = [] →
      chatKey it = chatSanitizeSender it.sender ++ '_' :: "unknown_date".toList := by
    intro it hd
    rw [chatKey, chatDatePart, hd, if_pos rfl]
  have hhomekey : ∀ it : HomeItem, it.date = [] →
      homeKey it = homeSanitizeChild it.child ++ '_' :: "unknown_date".toList := by
    intro it hd
    rw [homeKey, homeDatePart, hd, if_pos rfl]
  refine ⟨?_, ?_, ?_, ?_⟩
  · intro items i it hgi hd
    have h := assignAux_getElem? DownloadChat.generate_filename chatKey
      (fun it => it.file_type) chat_gen_eq items (fun _ => 0) i
    rw [hgi] at h
    simp only [Option.map_some'] at h
    rw [← hchatkey it hd]
    simpa [DownloadChat.assignFilenames] using h
  · intro items i j it1 it2 f1 f2 hij hgi hgj hd1 hd2 hs hf1 hf2
    have hkeys : chatKey it1 = chatKey it2 := by
      rw [hchatkey it1 hd1, hchatkey it2 hd2, hs]
    rcases Nat.lt_or_gt_of_ne hij with h | h
    · have hj2 : j < items.length := (List.getElem?_eq_some_iff.mp hgj).1
      refine assign_ne DownloadChat.generate_filename chatKey (fun it => it.file_type)
        chat_gen_eq items h hj2 ?_ f1 f2 hf1 hf2
      intro iti itj hgi2 hgj2
      rw [hgi2] at hgi
      rw [hgj2] at hgj
      cases hgi
      cases hgj
      exact Or.inl hkeys
    · have hi2 : i < items.length := (List.getElem?_eq_some_iff.mp hgi).1
      refine Ne.symm (assign_ne DownloadChat.generate_filename chatKey
        (fun it => it.file_type) chat_gen_eq items h hi2 ?_ f2 f1 hf2 hf1)
      intro iti itj hgi2 hgj2
      rw [hgi2] at hgj
      rw [hgj2] at hgi
      cases hgi
      cases hgj
      exact Or.inl hkeys.symm
  · intro items i it hgi hd
    have h := assignAux_getElem? DownloadHome.generate_filename homeKey
      (fun it => it.fileType) home_gen_eq items (fun _ => 0) i
    rw [hgi] at h
    simp only [Option.map_some'] at h
    rw [← hhomekey it hd]
    simpa [DownloadHome.assignFilenames] using h
  · intro items i j it1 it2 f1 f2 hij hgi hgj hd1 hd2 hs hf1 hf2
    have hkeys : homeKey it1 = homeKey it2 := by
      rw [hhomekey it1 hd1, hhomekey it2 hd2, hs]
    rcases Nat.lt_or_gt_of_ne hij with h | h
    · have hj2 : j < items.length := (List.getElem?_eq_some_iff.mp hgj).1
      refine assign_ne DownloadHome.generate_filename homeKey (fun it => it.fileType)
        home_gen_eq items h hj2 ?_ f1 f2 hf1 hf2
      intro iti itj hgi2 hgj2
      rw [hgi2] at hgi
      rw [hgj2] at hgj
      cases hgi
      cases hgj
      exact Or.inl hkeys
    · have hi2 : i < items.length := (List.getElem?_eq_some_iff.mp hgi).1
      refine Ne.symm (assign_ne DownloadHome.generate_filename homeKey
        (fun it => it.fileType) home_gen_eq items h hi2 ?_ f2 f1 hf2 hf1)
      intro iti itj hgi2 hgj2
      rw [hgi2] at hgj
      rw [hgj2] at hgi
      cases hgi
      cases hgj
      exact Or.inl hkeys.symm

/-- Witness for C10: two dateless chat items from sender `A` receive
`A_unknown_date.jpg` and `A_unknown_date_02.jpg`; likewise for home. -/
theorem claim_c10_witness :
    (DownloadChat.assignFilenames [c10Chat, c10Chat])[0]? =
      some ("A_unknown_date.jpg".toList) ∧
    (DownloadChat.assignFilenames [c10Chat, c10Chat])[1]? =
      some ("A_unknown_date_02.jpg".toList) ∧
    "A_unknown_date.jpg".toList ≠ "A_unknown_date_02.jpg".toList ∧
    (DownloadHome.assignFilenames [c10Home, c10Home])[1]? =
      some ("A_unknown_date_02.jpg".toList) := by
  refine ⟨by decide, by decide, ?_, by decide⟩
  exact claim_c10.2.1 [c10Chat, c10Chat] 0 1 c10Chat c10Chat _ _ (by decide)
    (by decide) (by decide) rfl rfl rfl (by decide) (by decide)

/-! ## Claim C6 -/

/-- C6: when every computed target path is already on disk, running the
downloader performs zero fetch attempts, returns no newly downloaded
files, and leaves the file set unchanged; for both scripts. -/
theorem claim_c6 :
    (∀ (items : List ChatItem) (dir : List Char) (disk : List (List Char))
      (fetchErr : List Char → Option String),
      (∀ p ∈ (DownloadChat.assignFilenames items).map (pathJoin dir), p ∈ disk) →
      DownloadChat.download_media items dir disk fetchErr = ⟨[], [], disk⟩) ∧
    (∀ (items : List HomeItem) (dir : List Char) (disk : List (List Char))
      (fetchErr : List Char → Option String),
      (∀ p ∈ (DownloadHome.assignFilenames items).map (pathJoin dir), p ∈ disk) →
      DownloadHome.download_media items dir disk fetchErr = ⟨[], [], disk⟩) := by
  constructor
  · intro items dir disk fetchErr h
    have hnil : DownloadChat.toDownload items dir disk = [] :=
      planAux_nil_of_exists DownloadChat.generate_filename dir disk items (fun _ => 0) h
    simp [DownloadChat.download_media, hnil]
  · intro items dir disk fetchErr h
    have hnil : DownloadHome.toDownload items dir disk = [] :=
      planAux_nil_of_exists DownloadHome.generate_filename dir disk items (fun _ => 0) h
    simp [DownloadHome.download_media, hnil]

/-- Witness for C6: a run over a directory already holding every target. -/
theorem claim_c6_witness :
    DownloadChat.download_media [c6Item] "out".toList c6Disk c7Fetch =
      ⟨[], [], c6Disk⟩ ∧
    DownloadHome.download_media [c10Home] "out".toList c6Disk c7Fetch =
      ⟨[], [], c6Disk⟩ :=
  ⟨claim_c6.1 [c6Item] "out".toList c6Disk c7Fetch (by decide),
   claim_c6.2 [c10Home] "out".toList c6Disk c7Fetch (by decide)⟩

/-! ## Claim C7 -/

/-- C7: in any completion order, the downloader returns exactly the items
whose fetch raised no exception, each paired with its path, timestamp,
kind, title and description; every planned item is attempted, and a
failing fetch is recorded as that item's error without affecting the
rest; for both scripts. -/
theorem claim_c7 :
    (∀ (items : List ChatItem) (dir : List Char) (disk : List (List Char))
      (fetchErr : List Char → Option String) (completed : List FetchResult),
      completed.Perm ((DownloadChat.toDownload items dir disk).map
        (DownloadChat.download_one fetchErr)) →
      (collectNewly completed).Perm
        (((DownloadChat.toDownload items dir disk).filter
            (fun pr => (fetchErr pr.1.url).isNone)).map
          (fun pr => ⟨pr.2, pr.1.date, pr.1.file_type, pr.1.title, pr.1.description⟩)) ∧
      (∀ pr ∈ DownloadChat.toDownload items dir disk,
        DownloadChat.download_one fetchErr pr ∈ completed) ∧
      (∀ pr ∈ DownloadChat.toDownload items dir disk, ∀ e,
        fetchErr pr.1.url = some e →
        (DownloadChat.download_one fetchErr pr).error = some e)) ∧
    (∀ (items : List HomeItem) (dir : List Char) (disk : List (List Char))
      (fetchErr : List Char → Option String) (completed : List FetchResult),
      completed.Perm ((DownloadHome.toDownload items dir disk).map
        (DownloadHome.download_one fetchErr)) →
      (collectNewly completed).Perm
        (((DownloadHome.toDownload items dir disk).filter
            (fun pr => (fetchErr pr.1.url).isNone)).map
          (fun pr => ⟨pr.2, pr.1.date, pr.1.fileType, pr.1.title, pr.1.description⟩)) ∧
      (∀ pr ∈ DownloadHome.toDownload items dir disk,
        DownloadHome.download_one fetchErr pr ∈ completed) ∧
      (∀ pr ∈ DownloadHome.toDownload items dir disk, ∀ e,
        fetchErr pr.1.url = some e →
        (DownloadHome.download_one fetchErr pr).error = some e)) := by
  constructor
  · intro items dir disk fetchErr completed hperm
    have heq := collectNewly_map (DownloadChat.download_one fetchErr)
      (fun pr => (fetchErr pr.1.url).isNone)
      (fun pr => ⟨pr.2, pr.1.date, pr.1.file_type, pr.1.title, pr.1.description⟩)
      (fun pr => by rw [(chat_download_one_spec fetchErr pr).1])
      (fun pr => (chat_download_one_spec fetchErr pr).2)
      (DownloadChat.toDownload items dir disk)
    refine ⟨heq ▸ collectNewly_perm hperm, ?_, ?_⟩
    · intro pr hpr
      exact (hperm.mem_iff).mpr (List.mem_map_of_mem _ hpr)
    · intro pr hpr e he
      rw [(chat_download_one_spec fetchErr pr).1, he]
  · intro items dir disk fetchErr completed hperm
    have heq := collectNewly_map (DownloadHome.download_one fetchErr)
      (fun pr => (fetchErr pr.1.url).isNone)
      (fun pr => ⟨pr.2, pr.1.date, pr.1.fileType, pr.1.title, pr.1.description⟩)
      (fun pr => by rw [(home_download_one_spec fetchErr pr).1])
      (fun pr => (home_download_one_spec fetchErr pr).2)
      (DownloadHome.toDownload items dir disk)
    refine ⟨heq ▸ collectNewly_perm hperm, ?_, ?_⟩
    · intro pr hpr
      exact (hperm.mem_iff).mpr (List.mem_map_of_mem _ hpr)
    · intro pr hpr e he
      rw [(home_download_one_spec fetchErr pr).1, he]

/-- Witness for C7: a two-item batch where one fetch fails. -/
theorem claim_c7_witness :
    (collectNewly ((DownloadChat.toDownload [c7Item1, c7Item2] "out".toList []).map
      (DownloadChat.download_one c7Fetch))).Perm
      (((DownloadChat.toDownload [c7Item1, c7Item2] "out".toList []).filter
          (fun pr => (c7Fetch pr.1.url).isNone)).map
        (fun pr => ⟨pr.2, pr.1.date, pr.1.file_type, pr.1.title, pr.1.description⟩)) :=
  (claim_c7.1 [c7Item1, c7Item2] "out".toList [] c7Fetch _ (List.Perm.refl _)).1

/-! ## Claim C2 -/

theorem searchOffsets_spec (items : List ChatMessage) (cur : Int)
    (sid : Option Int) (ds : Int) : ∀ os : List Nat,
    searchOffsets items cur sid ds os =
      ((os.flatMap (fun o => [cur - o, cur + o])).filterMap
        (fun idx => tryCandidate items idx sid ds)).head? := by
  intro os
  induction os with
  | nil => rfl
  | cons o rest ih =>
    rw [searchOffsets]
    rw [List.flatMap_cons, List.cons_append, List.cons_append, List.nil_append,
      List.filterMap_cons, List.filterMap_cons]
    cases h1 : tryCandidate items (cur - o) sid ds with
    | some t => rfl
    | none =>
      cases h2 : tryCandidate items (cur + o) sid ds with
      | some t => rfl
      | none => exact ih

/-- C2 (amended): the text-association search scans offsets 1 through 19
(the loop is `range(1, 20)`), backward before forward at each offset, and
returns the message of the first in-bounds qualifying candidate in that
order; it returns `None` exactly when no candidate within 19 positions
qualifies.  The claim's bound of 20 positions is refuted by the
counterexample. -/
theorem claim_c2 : ∀ (items : List ChatMessage) (cur : Int) (sid : Option Int)
    (ds : Int),
    find_associated_text items cur sid ds =
      ((candidatePositions cur 19).filterMap
        (fun idx => tryCandidate items idx sid ds)).head? ∧
    (find_associated_text items cur sid ds = none ↔
      ∀ idx ∈ candidatePositions cur 19, tryCandidate items idx sid ds = none) := by
  intro items cur sid ds
  have h := searchOffsets_spec items cur sid ds (List.range' 1 19)
  refine ⟨h, ?_⟩
  rw [find_associated_text, h, candidatePositions]
  rw [List.head?_eq_none_iff, List.filterMap_eq_nil_iff]

/-- Witness for C2 on a concrete conversation: the entry two positions
back qualifies and is returned. -/
theorem claim_c2_witness :
    find_associated_text [c2Good, c2Junk, c2Media] 2 (some 1) 1000 =
      ((candidatePositions 2 19).filterMap
        (fun idx => tryCandidate [c2Good, c2Junk, c2Media] idx (some 1) 1000)).head? ∧
    find_associated_text [c2Good, c2Junk, c2Media] 2 (some 1) 1000 = some "hello" :=
  ⟨(claim_c2 [c2Good, c2Junk, c2Media] 2 (some 1) 1000).1, by decide⟩

/-- Counterexample to C2 as stated: a qualifying text exactly 20 positions
away is not found, because the loop `range(1, 20)` stops at offset 19. -/
theorem claim_c2_counterexample :
    find_associated_text c2Items 0 (some 1) 1000 = none ∧
    c2Items[(20 : Nat)]? = some c2Good ∧
    tryCandidate c2Items 20 (some 1) 1000 = some "hello" := by
  refine ⟨by decide, by decide, by decide⟩

/-! ## Claim C3 -/

theorem endsWithHexJpg_iff (url : List Char) :
    endsWithHexJpg url = true ↔
      ∃ pre h, url = pre ++ [h, 'j', 'p', 'g'] ∧ isHexLower h = true := by
  constructor
  · intro he
    rw [endsWithHexJpg] at he
    rcases hr : url.reverse with _ | ⟨c1, _ | ⟨c2, _ | ⟨c3, _ | ⟨c4, t⟩⟩⟩⟩ <;>
      rw [hr] at he <;> simp at he
    obtain ⟨⟨⟨rfl, rfl⟩, rfl⟩, hhex⟩ := he
    refine ⟨t.reverse, c4, ?_, hhex⟩
    have := congrArg List.reverse hr
    rw [List.reverse_reverse] at this
    rw [this]
    simp
  · rintro ⟨pre, h, rfl, hh⟩
    rw [endsWithHexJpg]
    have hrev : (pre ++ [h, 'j', 'p', 'g']).reverse =
        'g' :: 'p' :: 'j' :: h :: pre.reverse := by simp
    rw [hrev]
    simp [hh]

/-- C3 (amended): `is_thumbnail` is true exactly when the URL ends in a
lowercase hex digit followed directly by `jpg`, or ends in that pattern
followed by one trailing newline (the Python `$` anchor also matches just
before a final newline); URLs ending in `.jpg`, `.mp4` or `.png` are never
classified as thumbnails. -/
theorem claim_c3 : ∀ url : List Char,
    (is_thumbnail url = true ↔
      ((∃ pre h, url = pre ++ [h, 'j', 'p', 'g'] ∧ isHexLower h = true) ∨
       (∃ pre h, url = pre ++ [h, 'j', 'p', 'g', '\n'] ∧ isHexLower h = true))) ∧
    (((∃ pre, url = pre ++ '.' :: "jpg".toList) ∨
      (∃ pre, url = pre ++ '.' :: "mp4".toList) ∨
      (∃ pre, url = pre ++ '.' :: "png".toList)) → is_thumbnail url = false) := by
  intro url
  constructor
  · rw [is_thumbnail, Bool.or_eq_true]
    constructor
    · rintro (he | hn)
      · exact Or.inl ((endsWithHexJpg_iff url).mp he)
      · right
        rcases hr : url.reverse with _ | ⟨c, rest⟩
        · rw [hr] at hn
          simp at hn
        · rw [hr] at hn
          simp only [Bool.and_eq_true, beq_iff_eq] at hn
          obtain ⟨rfl, he⟩ := hn
          obtain ⟨pre, h, hpre, hhex⟩ := (endsWithHexJpg_iff rest.reverse).mp he
          refine ⟨pre, h, ?_, hhex⟩
          have := congrArg List.reverse hr
          rw [List.reverse_reverse] at this
          rw [this, List.reverse_cons, hpre]
          simp
    · rintro (⟨pre, h, rfl, hh⟩ | ⟨pre, h, rfl, hh⟩)
      · exact Or.inl ((endsWithHexJpg_iff _).mpr ⟨pre, h, rfl, hh⟩)
      · right
        have hrev : (pre ++ [h, 'j', 'p', 'g', '\n']).reverse =
            '\n' :: ('g' :: 'p' :: 'j' :: h :: pre.reverse) := by simp
        rw [hrev]
        simp only [Bool.and_eq_true, beq_iff_eq]
        refine ⟨trivial, ?_⟩
        apply (endsWithHexJpg_iff _).mpr
        refine ⟨pre, h, ?_, hh⟩
        simp
  · rintro (⟨pre, rfl⟩ | ⟨pre, rfl⟩ | ⟨pre, rfl⟩) <;>
      simp [is_thumbnail, endsWithHexJpg, List.reverse_append, isHexLower]

/-- Witness for C3: a hex-ending URL is a thumbnail and a dotted URL is
not. -/
theorem claim_c3_witness :
    is_thumbnail "abc123jpg".toList = true ∧
    is_thumbnail "photo.jpg".toList = false := by
  constructor
  · exact (claim_c3 "abc123jpg".toList).1.mpr
      (Or.inl ⟨"abc12".toList, '3', by decide, by decide⟩)
  · exact (claim_c3 "photo.jpg".toList).2 (Or.inl ⟨"photo".toList, by decide⟩)

/-- Counterexample to C3 as stated: the URL `ajpg` followed by a newline is
classified as a thumbnail although it does not end in hex digit plus
`jpg`. -/
theorem claim_c3_counterexample :
    is_thumbnail ['a', 'j', 'p', 'g', '\n'] = true ∧
    ¬ ∃ pre h, (['a', 'j', 'p', 'g', '\n'] : List Char) = pre ++ [h, 'j', 'p', 'g'] ∧
      isHexLower h = true := by
  refine ⟨by decide, ?_⟩
  rw [← endsWithHexJpg_iff]
  decide

/-! ## Claim C4 -/

theorem collapse_head? : ∀ l : List Char,
    (collapseUnderscores l).head? = l.head? := by
  intro l
  induction l with
  | nil => rfl
  | cons a t ih =>
    cases t with
    | nil => rfl
    | cons b r =>
      simp only [collapseUnderscores]
      by_cases h : (a == '_' && b == '_') = true
      · rw [if_pos h, ih]
        simp only [Bool.and_eq_true, beq_iff_eq] at h
        rw [h.1, h.2]
        rfl
      · rw [if_neg h]
        rfl

theorem noDouble_collapse : ∀ l : List Char,
    noDoubleUnderscore (collapseUnderscores l) = true := by
  intro l
  induction l with
  | nil => rfl
  | cons a t ih =>
    cases t with
    | nil => rfl
    | cons b r =>
      simp only [collapseUnderscores]
      by_cases h : (a == '_' && b == '_') = true
      · rw [if_pos h]
        exact ih
      · rw [if_neg h]
        have hh := collapse_head? (b :: r)
        cases hc : collapseUnderscores (b :: r) with
        | nil => rfl
        | cons x xs =>
          rw [hc] at hh
          simp only [List.head?_cons, Option.some.injEq] at hh
          rw [hc] at ih
          show (!(a == '_' && x == '_') && noDoubleUnderscore (x :: xs)) = true
          rw [ih, hh]
          have h2 : (a == '_' && b == '_') = false := by
            revert h
            cases a == '_' && b == '_' <;> simp
          rw [h2]
          rfl

theorem noDouble_tail {a : Char} {l : List Char}
    (h : noDoubleUnderscore (a :: l) = true) : noDoubleUnderscore l = true := by
  cases l with
  | nil => rfl
  | cons b r =>
    have h2 : (!(a == '_' && b == '_') && noDoubleUnderscore (b :: r)) = true := h
    simp only [Bool.and_eq_true] at h2
    exact h2.2

theorem noDouble_dropWhile (p : Char → Bool) : ∀ l : List Char,
    noDoubleUnderscore l = true → noDoubleUnderscore (l.dropWhile p) = true := by
  intro l
  induction l with
  | nil => intro h; exact h
  | cons a t ih =>
    intro h
    rw [List.dropWhile_cons]
    by_cases hp : p a = true
    · rw [if_pos hp]
      exact ih (noDouble_tail h)
    · rw [if_neg hp]
      exact h

theorem noDouble_append_left : ∀ l t : List Char,
    noDoubleUnderscore (l ++ t) = true → noDoubleUnderscore l = true := by
  intro l
  induction l with
  | nil => intro t _; rfl
  | cons a l2 ih =>
    intro t h
    cases l2 with
    | nil => rfl
    | cons b r =>
      have h2 : (!(a == '_' && b == '_') && noDoubleUnderscore (b :: (r ++ t))) = true := h
      simp only [Bool.and_eq_true] at h2
      obtain ⟨h3, h4⟩ := h2
      have h5 := ih t h4
      show (!(a == '_' && b == '_') && noDoubleUnderscore (b :: r)) = true
      rw [h3, h5]
      rfl

theorem rstrip_append : ∀ l : List Char, ∃ t, l = rstripUnderscores l ++ t := by
  intro l
  induction l with
  | nil => exact ⟨[], rfl⟩
  | cons c rest ih =>
    obtain ⟨t, ht⟩ := ih
    simp only [rstripUnderscores]
    by_cases h : ((rstripUnderscores rest).isEmpty && c == '_') = true
    · rw [if_pos h]
      exact ⟨c :: rest, rfl⟩
    · rw [if_neg h]
      exact ⟨t, by rw [List.cons_append, ← ht]⟩

theorem rstrip_head? (l : List Char) :
    (rstripUnderscores l).head? = none ∨ (rstripUnderscores l).head? = l.head? := by
  cases l with
  | nil => exact Or.inl rfl
  | cons c rest =>
    simp only [rstripUnderscores]
    by_cases h : ((rstripUnderscores rest).isEmpty && c == '_') = true
    · rw [if_pos h]
      exact Or.inl rfl
    · rw [if_neg h]
      exact Or.inr rfl

theorem rstrip_getLast? : ∀ (l : List Char) (a : Char),
    (rstripUnderscores l).getLast? = some a → a ≠ '_' := by
  intro l
  induction l with
  | nil => intro a h; simp [rstripUnderscores] at h
  | cons c rest ih =>
    intro a h
    simp only [rstripUnderscores] at h
    by_cases hb : ((rstripUnderscores rest).isEmpty && c == '_') = true
    · rw [if_pos hb] at h
      simp at h
    · rw [if_neg hb] at h
      cases hr : rstripUnderscores rest with
      | nil =>
        rw [hr] at h
        simp only [List.getLast?_singleton, Option.some.injEq] at h
        subst h
        rw [hr] at hb
        simpa using hb
      | cons x xs =>
        rw [hr, List.getLast?_cons_cons] at h
        rw [← hr] at h
        exact ih a h

theorem collapse_subset : ∀ l : List Char, ∀ c ∈ collapseUnderscores l, c ∈ l := by
  intro l
  induction l with
  | nil => intro c hc; exact hc
  | cons a t ih =>
    cases t with
    | nil => intro c hc; exact hc
    | cons b r =>
      intro c hc
      simp only [collapseUnderscores] at hc
      by_cases h : (a == '_' && b == '_') = true
      · rw [if_pos h] at hc
        exact List.mem_cons_of_mem a (ih c hc)
      · rw [if_neg h] at hc
        rcases List.mem_cons.mp hc with rfl | hc
        · exact List.mem_cons_self c (b :: r)
        · exact List.mem_cons_of_mem a (ih c hc)

theorem rstrip_subset (l : List Char) : ∀ c ∈ rstripUnderscores l, c ∈ l := by
  obtain ⟨t, ht⟩ := rstrip_append l
  intro c hc
  rw [ht]
  exact List.mem_append.mpr (Or.inl hc)

theorem lstrip_head? : ∀ (l : List Char) (a : Char),
    (lstripUnderscores l).head? = some a → a ≠ '_' := by
  intro l
  induction l with
  | nil => intro a h; simp [lstripUnderscores] at h
  | cons c rest ih =>
    intro a h
    rw [lstripUnderscores, List.dropWhile_cons] at h
    by_cases hc : (c == '_') = true
    · rw [if_pos hc] at h
      exact ih a h
    · rw [if_neg hc] at h
      simp only [List.head?_cons, Option.some.injEq] at h
      subst h
      simpa using hc

theorem substituteNonWord_ascii {w : Char → Bool} (hw : IsWordClass w)
    {name : List Char} (h : ∀ c ∈ name, c.toNat < 128) :
    substituteNonWord w name = substituteNonWord isWordChar name := by
  rw [substituteNonWord, substituteNonWord]
  apply List.map_congr_left
  intro c hc
  rw [hw c (h c hc)]

/-- C4 (amended): for every word class agreeing with the Unicode-aware
`\w` of the pattern (constrained on ASCII, where the two coincide),
sanitising a grouping key maps every character that is neither a word
character nor a hyphen to an underscore (so every surviving character is
a word character or a hyphen — hyphens, though non-word, are kept as is),
collapses runs of underscores, and strips leading and trailing
underscores, so the result never has a leading, trailing or doubled
underscore; and `Bluey's Photos!` sanitises to `Bluey_s_Photos`. -/
theorem claim_c4 : ∀ w : Char → Bool, IsWordClass w →
    (∀ name : List Char,
      (sanitize_folder_name w name).head? ≠ some '_' ∧
      (sanitize_folder_name w name).getLast? ≠ some '_' ∧
      noDoubleUnderscore (sanitize_folder_name w name) = true ∧
      (∀ c ∈ sanitize_folder_name w name, w c = true ∨ c = '-')) ∧
    sanitize_folder_name w blueyName = "Bluey_s_Photos".toList := by
  intro w hw
  constructor
  · intro name
    refine ⟨?_, ?_, ?_, ?_⟩
    · intro h
      rcases rstrip_head? (lstripUnderscores (collapseUnderscores
          (substituteNonWord w name))) with h2 | h2
      · rw [sanitize_folder_name] at h
        rw [h] at h2
        exact Option.noConfusion h2
      · rw [sanitize_folder_name] at h
        rw [h] at h2
        exact lstrip_head? _ '_' h2.symm rfl
    · intro h
      exact rstrip_getLast? _ '_' h rfl
    · obtain ⟨t, ht⟩ := rstrip_append
        (lstripUnderscores (collapseUnderscores (substituteNonWord w name)))
      apply noDouble_append_left _ t
      rw [sanitize_folder_name, ← ht]
      exact noDouble_dropWhile _ _ (noDouble_collapse _)
    · intro c hc
      have h1 : c ∈ lstripUnderscores (collapseUnderscores (substituteNonWord w name)) :=
        rstrip_subset _ c hc
      have h2 : c ∈ collapseUnderscores (substituteNonWord w name) :=
        (List.dropWhile_sublist _).subset h1
      have h3 : c ∈ substituteNonWord w name := collapse_subset _ c h2
      rcases List.mem_map.mp h3 with ⟨c0, -, rfl⟩
      by_cases hwc : (w c0 || c0 == '-') = true
      · rw [if_pos hwc]
        simpa using hwc
      · rw [if_neg hwc]
        refine Or.inl ((hw '_' (by decide)).trans (by decide))
  · rw [sanitize_folder_name, substituteNonWord_ascii hw (by decide)]
    decide

/-- Witness for C4 on concrete ASCII names, instantiating the word class
with the ASCII table (a legitimate word class). -/
theorem claim_c4_witness :
    sanitize_folder_name isWordChar "John Doe".toList = "John_Doe".toList ∧
    noDoubleUnderscore
      (sanitize_folder_name isWordChar "Name  With   Spaces".toList) = true ∧
    sanitize_folder_name isWordChar blueyName = "Bluey_s_Photos".toList :=
  ⟨by decide,
   ((claim_c4 isWordChar (fun _ _ => rfl)).1 "Name  With   Spaces".toList).2.2.1,
   (claim_c4 isWordChar (fun _ _ => rfl)).2⟩

/-- Counterexample to C4 as stated: the hyphen is a non-word character
(in Python as well, since it is ASCII) yet survives sanitisation
unchanged instead of becoming an underscore; the input is all ASCII, so
every word class produces the same result here. -/
theorem claim_c4_counterexample :
    IsWordClass isWordChar ∧
    sanitize_folder_name isWordChar ['a', '-', 'b'] = ['a', '-', 'b'] ∧
    isWordChar '-' = false ∧
    ('-' : Char) ∈ sanitize_folder_name isWordChar ['a', '-', 'b'] := by
  refine ⟨fun _ _ => rfl, by decide, by decide, by decide⟩

/-! ## Claims C5 and C9 -/

theorem dictLookup_append (d1 d2 : List (String × JVal)) (k : String) :
    dictLookup (d1 ++ d2) k =
      match dictLookup d1 k with
      | some v => some v
      | none => dictLookup d2 k := by
  induction d1 with
  | nil => rfl
  | cons kv rest ih =>
    obtain ⟨k2, v2⟩ := kv
    rw [List.cons_append]
    show (if k2 = k then some v2 else dictLookup (rest ++ d2) k) = _
    by_cases hk : k2 = k
    · rw [if_pos hk]
      show _ = (match (if k2 = k then some v2 else dictLookup rest k) with
        | some v => some v
        | none => dictLookup d2 k)
      rw [if_pos hk]
    · rw [if_neg hk, ih]
      show _ = (match (if k2 = k then some v2 else dictLookup rest k) with
        | some v => some v
        | none => dictLookup d2 k)
      rw [if_neg hk]

theorem dictLookup_mapMerge (d1 d2 : List (String × JVal)) (k : String) :
    dictLookup (d1.map (fun kv =>
      match dictLookup d2 kv.1 with
      | some v => (kv.1, v)
      | none => kv)) k =
    match dictLookup d1 k with
    | some v => some (match dictLookup d2 k with | some w => w | none => v)
    | none => none := by
  induction d1 with
  | nil => rfl
  | cons kv rest ih =>
    obtain ⟨k2, v2⟩ := kv
    rw [List.map_cons]
    cases h2 : dictLookup d2 k2 with
    | none =>
      show (if k2 = k then some v2 else _) = _
      by_cases hk : k2 = k
      · subst hk
        rw [if_pos rfl]
        show _ = (match (if k2 = k2 then some v2 else dictLookup rest k2) with
          | some v => some (match dictLookup d2 k2 with | some w => w | none => v)
          | none => none)
        rw [if_pos rfl, h2]
      · rw [if_neg hk, ih]
        show _ = (match (if k2 = k then some v2 else dictLookup rest k) with
          | some v => some _
          | none => none)
        rw [if_neg hk]
    | some w =>
      show (if k2 = k then some w else _) = _
      by_cases hk : k2 = k
      · subst hk
        rw [if_pos rfl]
        show _ = (match (if k2 = k2 then some v2 else dictLookup rest k2) with
          | some v => some (match dictLookup d2 k2 with | some w => w | none => v)
          | none => none)
        rw [if_pos rfl, h2]
      · rw [if_neg hk, ih]
        show _ = (match (if k2 = k then some v2 else dictLookup rest k) with
          | some v => some _
          | none => none)
        rw [if_neg hk]

theorem dictLookup_filterNew (d1 d2 : List (String × JVal)) (k : String) :
    dictLookup (d2.filter (fun kv => (dictLookup d1 kv.1).isNone)) k =
      if (dictLookup d1 k).isNone then dictLookup d2 k else none := by
  induction d2 with
  | nil =>
    show (none : Option JVal) = if (dictLookup d1 k).isNone then none else none
    exact (ite_self none).symm
  | cons kv rest ih =>
    obtain ⟨k2, v2⟩ := kv
    rw [List.filter_cons]
    by_cases hk : k2 = k
    · subst hk
      by_cases h1 : (dictLookup d1 k2).isNone = true
      · rw [if_pos (by simpa using h1)]
        show (if k2 = k2 then some v2 else _) = _
        rw [if_pos rfl, if_pos h1]
        show _ = (if k2 = k2 then some v2 else dictLookup rest k2)
        rw [if_pos rfl]
      · rw [if_neg (by simpa using h1), ih, if_neg h1, if_neg h1]
    · by_cases h1 : (dictLookup d1 k2).isNone = true
      · rw [if_pos (by simpa using h1)]
        show (if k2 = k then some v2 else _) = _
        rw [if_neg hk, ih]
        by_cases hh : (dictLookup d1 k).isNone = true
        · rw [if_pos hh, if_pos hh]
          show _ = (if k2 = k then some v2 else dictLookup rest k)
          rw [if_neg hk]
        · rw [if_neg hh, if_neg hh]
      · rw [if_neg (by simpa using h1), ih]
        have hskip : dictLookup ((k2, v2) :: rest) k = dictLookup rest k := by
          show (if k2 = k then some v2 else dictLookup rest k) = _
          rw [if_neg hk]
        rw [hskip]

theorem dictLookup_merge (d1 d2 : List (String × JVal)) (k : String) :
    dictLookup (dictMerge d1 d2) k =
      match dictLookup d2 k with
      | some v => some v
      | none => dictLookup d1 k := by
  rw [dictMerge, dictLookup_append, dictLookup_mapMerge, dictLookup_filterNew]
  cases h1 : dictLookup d1 k with
  | none =>
    cases h2 : dictLookup d2 k with
    | none => simp [h1]
    | some w => simp [h1]
  | some v =>
    cases h2 : dictLookup d2 k with
    | none => simp [h1]
    | some w => simp [h1]

/-- C5: loading a stored config merges it over the defaults — every key
present in the file (known or extra) keeps the file's value, each default
key missing from the file gets its default `null`, and a missing or
unparseable file yields exactly the defaults. -/
theorem claim_c5 :
    (∀ (cfg : List (String × JVal)) (k : String) (v : JVal),
      dictLookup cfg k = some v →
      dictLookup (load_config (FileState.valid cfg)) k = some v) ∧
    (∀ (cfg : List (String × JVal)) (k : String),
      dictLookup cfg k = none →
      dictLookup (load_config (FileState.valid cfg)) k = dictLookup DEFAULT_CONFIG k) ∧
    dictLookup DEFAULT_CONFIG "location" = some JVal.null ∧
    dictLookup DEFAULT_CONFIG "email" = some JVal.null ∧
    dictLookup DEFAULT_CONFIG "op_path" = some JVal.null ∧
    load_config FileState.absent = DEFAULT_CONFIG ∧
    load_config FileState.corrupt = DEFAULT_CONFIG := by
  refine ⟨?_, ?_, rfl, rfl, rfl, rfl, rfl⟩
  · intro cfg k v h
    show dictLookup (dictMerge DEFAULT_CONFIG cfg) k = some v
    rw [dictLookup_merge, h]
  · intro cfg k h
    show dictLookup (dictMerge DEFAULT_CONFIG cfg) k = _
    rw [dictLookup_merge, h]

/-- Witness for C5: a config file with one known and one extra key. -/
theorem claim_c5_witness :
    dictLookup (load_config (FileState.valid
      [("email", JVal.jstr "a"), ("extra", JVal.jnum 3)])) "extra" =
      some (JVal.jnum 3) ∧
    dictLookup (load_config (FileState.valid
      [("email", JVal.jstr "a"), ("extra", JVal.jnum 3)])) "location" =
      some JVal.null := by
  constructor
  · exact claim_c5.1 _ "extra" _ rfl
  · exact (claim_c5.2.1 [("email", JVal.jstr "a"), ("extra", JVal.jnum 3)]
      "location" rfl).trans rfl

/-- C9: saving the sync state merges the new markers over the existing
state — keys in the new mapping take the new values, all other existing
keys are preserved unchanged. -/
theorem claim_c9 :
    ∀ (st : FileState) (data : List (String × JVal)) (k : String),
      (∀ v, dictLookup data k = some v →
        dictLookup (save_last_sync st data) k = some v) ∧
      (dictLookup data k = none →
        dictLookup (save_last_sync st data) k = dictLookup (load_last_sync st) k) := by
  intro st data k
  constructor
  · intro v h
    show dictLookup (dictMerge (load_last_sync st) data) k = some v
    rw [dictLookup_merge, h]
  · intro h
    show dictLookup (dictMerge (load_last_sync st) data) k = _
    rw [dictLookup_merge, h]

/-- Witness for C9: updating one feed marker preserves the other. -/
theorem claim_c9_witness :
    dictLookup (save_last_sync (FileState.valid
      [("messages", JVal.jnum 5), ("notes", JVal.jstr "t")])
      [("messages", JVal.jnum 9)]) "messages" = some (JVal.jnum 9) ∧
    dictLookup (save_last_sync (FileState.valid
      [("messages", JVal.jnum 5), ("notes", JVal.jstr "t")])
      [("messages", JVal.jnum 9)]) "notes" = some (JVal.jstr "t") := by
  constructor
  · exact (claim_c9 _ _ "messages").1 _ rfl
  · exact ((claim_c9 (FileState.valid
      [("messages", JVal.jnum 5), ("notes", JVal.jstr "t")])
      [("messages", JVal.jnum 9)] "notes").2 rfl).trans rfl

/-! ## Claim C8 -/

theorem hasEnding_iff (url pat : List Char) :
    hasEnding url pat = true ↔ ∃ pre, url = pre ++ pat := by
  rw [hasEnding]
  constructor
  · intro h
    have h2 : url.reverse.take pat.length = pat.reverse := by
      exact eq_of_beq h
    have h3 : url.reverse = pat.reverse ++ url.reverse.drop pat.length := by
      conv_lhs => rw [← List.take_append_drop pat.length url.reverse]
      rw [h2]
    refine ⟨(url.reverse.drop pat.length).reverse, ?_⟩
    have h4 := congrArg List.reverse h3
    rw [List.reverse_reverse] at h4
    rw [h4]
    simp
  · rintro ⟨pre, rfl⟩
    have h5 : (pre ++ pat).reverse = pat.reverse ++ pre.reverse := by simp
    rw [h5, List.take_left' (by simp)]
    simp

theorem hasEnding_ne {url p1 p2 : List Char} {c1 c2 : Char}
    (h1 : p1.getLast? = some c1) (h2 : p2.getLast? = some c2) (hc : c1 ≠ c2)
    (he : hasEnding url p1 = true) : hasEnding url p2 = false := by
  obtain ⟨pre, rfl⟩ := (hasEnding_iff url p1).mp he
  by_contra hfalse
  rw [Bool.not_eq_false] at hfalse
  obtain ⟨pre2, heq⟩ := (hasEnding_iff _ p2).mp hfalse
  have hl1 : (pre ++ p1).getLast? = some c1 := by
    rw [List.getLast?_append, h1]
    rfl
  have hl2 : (pre ++ p1).getLast? = some c2 := by
    rw [heq, List.getLast?_append, h2]
    rfl
  rw [hl1] at hl2
  exact hc (Option.some.injEq c1 c2 ▸ hl2)

/-- C8: for every URL accepted by the chat extraction filter, the mapped
kind is `mp4` exactly when the URL ends in `.mp4` and `jpg` exactly when
it ends in `.png` (the deliberate png-to-jpg mapping); every accepted URL
gets kind `jpg` or `mp4`, and the tagging step selects the image date
fields for a `.png` URL because it keys on the mapped kind. -/
theorem claim_c8 : ∀ url : List Char, chatMediaAccepted url = true →
    (get_file_type url = "mp4".toList ↔ hasEnding url ".mp4".toList = true) ∧
    (get_file_type url = "jpg".toList ↔ hasEnding url ".png".toList = true) ∧
    (get_file_type url = "jpg".toList ∨ get_file_type url = "mp4".toList) ∧
    (hasEnding url ".png".toList = true →
      dateTagFields (get_file_type url) =
        ["DateTimeOriginal", "CreateDate", "ModifyDate"]) := by
  intro url hacc
  have hdisj : hasEnding url ".png".toList = true ∨
      hasEnding url ".mp4".toList = true := by
    rw [chatMediaAccepted] at hacc
    simp only [Bool.and_eq_true, Bool.or_eq_true] at hacc
    exact hacc.2
  rcases hdisj with hpng | hmp4
  · have hnm : hasEnding url ".mp4".toList = false :=
      @hasEnding_ne url ".png".toList ".mp4".toList 'g' '4'
        (by decide) (by decide) (by decide) hpng
    have hft : get_file_type url = "jpg".toList := by
      rw [get_file_type, hnm, if_neg (by simp), if_pos hpng]
    refine ⟨⟨?_, ?_⟩, ⟨fun _ => hpng, fun _ => hft⟩, Or.inl hft, fun _ => ?_⟩
    · intro hg
      rw [hft] at hg
      exact absurd hg (by decide)
    · intro hm
      rw [hm] at hnm
      exact absurd hnm (by decide)
    · rw [hft]
      rfl
  · have hnp : hasEnding url ".png".toList = false :=
      @hasEnding_ne url ".mp4".toList ".png".toList '4' 'g'
        (by decide) (by decide) (by decide) hmp4
    have hft : get_file_type url = "mp4".toList := by
      rw [get_file_type, if_pos hmp4]
    refine ⟨⟨fun _ => hmp4, fun _ => hft⟩, ⟨?_, ?_⟩, Or.inr hft, ?_⟩
    · intro hg
      rw [hft] at hg
      exact absurd hg (by decide)
    · intro hp
      rw [hp] at hnp
      exact absurd hnp (by decide)
    · intro hp
      rw [hp] at hnp
      exact absurd hnp (by decide)

/-- Witness for C8: a `.png` chat attachment is accepted, mapped to the
`jpg` kind, and tagged with the image date fields. -/
theorem claim_c8_witness :
    chatMediaAccepted "http://x/a.png".toList = true ∧
    get_file_type "http://x/a.png".toList = "jpg".toList ∧
    dateTagFields (get_file_type "http://x/a.png".toList) =
      ["DateTimeOriginal", "CreateDate", "ModifyDate"] := by
  have hacc : chatMediaAccepted "http://x/a.png".toList = true := by decide
  have h := claim_c8 "http://x/a.png".toList hacc
  exact ⟨hacc, h.2.1.mpr (by decide), h.2.2.2 (by decide)⟩

end LG
